import Mathlib

/-!
Shallow embedding of the excelize worksheet/cell/formula core and proofs
about it.  Each definition mirrors one function of the Go source
(calc/cell/rows/worksheet files); Go machine integers are mapped to
Nat/Int, Go float64 values to exact integer fractions (every numeric
computation settled below stays on integer-valued data where float
arithmetic is exact), fallible Go functions to an Except monad whose
error type separates returned errors from runtime panics.
-/

/-! ## Go-style results: returned errors vs. panics -/

inductive GoErr where
  | goError (msg : String)
  | goPanic (msg : String)
deriving DecidableEq

abbrev GoM (α : Type) := Except GoErr α

instance {α : Type} [DecidableEq α] : DecidableEq (GoM α) := fun a b =>
  match a, b with
  | .ok x, .ok y =>
    if h : x = y then isTrue (by rw [h]) else isFalse (by intro hh; cases hh; exact h rfl)
  | .error x, .error y =>
    if h : x = y then isTrue (by rw [h]) else isFalse (by intro hh; cases hh; exact h rfl)
  | .ok _, .error _ => isFalse (by intro hh; cases hh)
  | .error _, .ok _ => isFalse (by intro hh; cases hh)

/-! ## Characters and decimal/alphabetic strings

String scanning is done on the character lists backing Lean strings; the
worksheet data in scope is ASCII, where Go's byte-wise scanning and
character-wise scanning agree. -/

def isUpCh (c : Char) : Bool := 65 ≤ c.toNat && c.toNat ≤ 90

def isDigitCh (c : Char) : Bool := 48 ≤ c.toNat && c.toNat ≤ 57

def quoteCh : Char := Char.ofNat 34

def upChar (c : Char) : Char :=
  if 97 ≤ c.toNat && c.toNat ≤ 122 then Char.ofNat (c.toNat - 32) else c

def upStr (s : String) : String := ⟨s.data.map upChar⟩

def splitOnCh (sep : Char) : List Char → List (List Char)
  | [] => [[]]
  | c :: cs =>
    let r := splitOnCh sep cs
    if c = sep then [] :: r
    else
      match r with
      | [] => [[c]]
      | h :: t => (c :: h) :: t

def letterOf (k : Nat) : Char := "ABCDEFGHIJKLMNOPQRSTUVWXYZ".data.getD k 'A'

def letterVal (c : Char) : Nat := c.toNat - 64

def digitOf (k : Nat) : Char := "0123456789".data.getD k '0'

def digitVal (c : Char) : Nat := c.toNat - 48

/-- Decimal digits of a natural number, most significant first (the first
argument is recursion fuel; any fuel at least the number itself is enough). -/
def natToCharsAux : Nat → Nat → List Char
  | 0, _ => []
  | f + 1, n => if n = 0 then [] else natToCharsAux f (n / 10) ++ [digitOf (n % 10)]

def itoaNat (n : Nat) : String := if n = 0 then "0" else ⟨natToCharsAux n n⟩

/-- Decimal rendering of a Go int (strconv.Itoa). -/
def itoaInt (i : Int) : String :=
  if i < 0 then "-" ++ itoaNat i.natAbs else itoaNat i.toNat

def parseDigitsNat (l : List Char) : Nat := l.foldl (fun a c => a * 10 + digitVal c) 0

/-- Model of strconv.Atoi restricted to the forms the embedded code feeds it:
an optional sign followed by decimal digits. -/
def parseIntOpt (s : String) : Option Int :=
  match s.data with
  | [] => none
  | '-' :: rest => if rest ≠ [] && rest.all isDigitCh then some (-(parseDigitsNat rest : Int)) else none
  | '+' :: rest => if rest ≠ [] && rest.all isDigitCh then some (parseDigitsNat rest : Int) else none
  | l => if l.all isDigitCh then some (parseDigitsNat l : Int) else none

def parseNatOpt (s : String) : Option Nat :=
  if s.data ≠ [] && s.data.all isDigitCh then some (parseDigitsNat s.data) else none

/-! ## Exact fractions standing in for Go float64 values

Values are unreduced integer fractions.  All arithmetic the proofs below
evaluate stays on integer-valued fractions, where float64 arithmetic is
exact, so the embedding agrees with the Go code there.  A fraction with
denominator 0 is the explicit "not modelled" value (irrational results of
math.Sqrt/math.Pow and friends); no theorem below depends on it. -/

structure Qv where
  num : Int
  den : Int
deriving DecidableEq

def qOfInt (n : Int) : Qv := ⟨n, 1⟩

def qZero : Qv := ⟨0, 1⟩

def qAdd (x y : Qv) : Qv := ⟨x.num * y.den + y.num * x.den, x.den * y.den⟩

def qSub (x y : Qv) : Qv := ⟨x.num * y.den - y.num * x.den, x.den * y.den⟩

def qMul (x y : Qv) : Qv := ⟨x.num * y.num, x.den * y.den⟩

def qDiv (x y : Qv) : Qv := ⟨x.num * y.den, x.den * y.num⟩

def qNeg (x : Qv) : Qv := ⟨-x.num, x.den⟩

/-- Value comparison of fractions (sign-safe cross multiplication). -/
def qLt (x y : Qv) : Bool :=
  x.num * x.den * (y.den * y.den) < y.num * y.den * (x.den * x.den)

/-- Value equality of fractions (cross multiplication; both sides of every
comparison made by the embedded code have nonzero denominators). -/
def qEqv (x y : Qv) : Bool := x.num * y.den == y.num * x.den

def qIsInt (x : Qv) : Bool := x.den != 0 && x.num % x.den == 0

def qToInt (x : Qv) : Int := x.num / x.den

/-- Truncation toward zero of an integer quotient (Go integer conversion
and math.Trunc semantics). -/
def tdivI (a b : Int) : Int :=
  if (a < 0) = (b < 0) then (a.natAbs / b.natAbs : Nat)
  else -((a.natAbs / b.natAbs : Nat) : Int)

def qTrunc (x : Qv) : Qv := if x.den == 0 then x else ⟨tdivI x.num x.den, 1⟩

def qAbs (x : Qv) : Qv := ⟨(x.num.natAbs : Int), (x.den.natAbs : Int)⟩

def qPowNat (x : Qv) (n : Nat) : Qv := ⟨x.num ^ n, x.den ^ n⟩

/-- Go fmt %g rendering, modelled exactly on integer values; non-integer
values render to an explicit marker no proof relies on. -/
def formatG (x : Qv) : String :=
  if qIsInt x then itoaInt (qToInt x) else "unmodelled-nonintegral-float"

/-- Model of strconv.ParseFloat restricted to the decimal forms the
embedded code feeds it: optional sign, integer digits, optional fraction
digits (exponent forms are never produced by the evaluator). -/
def parseGoFloat (s : String) : Option Qv :=
  let core : List Char → Option Qv := fun cs =>
    let intPart := cs.takeWhile isDigitCh
    let rest := cs.drop intPart.length
    match rest with
    | [] => if intPart.isEmpty then none else some ⟨(parseDigitsNat intPart : Int), 1⟩
    | '.' :: frac =>
      if frac.all isDigitCh && !(intPart.isEmpty && frac.isEmpty) then
        some ⟨(parseDigitsNat (intPart ++ frac) : Int), ((10 : Int) ^ frac.length)⟩
      else none
    | _ => none
  match s.data with
  | [] => none
  | '-' :: rest => (core rest).map qNeg
  | '+' :: rest => core rest
  | l => core l

def parseFloatErr (s : String) : GoErr :=
  .goError ("strconv.ParseFloat: parsing \"" ++ s ++ "\": invalid syntax")

/-! ## Coordinate system

The coordinate conversion helpers live in the repository's library file,
which is outside the provided sources; they are modelled from the spec:
a cell name matches `[A-Z]+[1-9][0-9]*` with column at most 16384 and row
at most 1048576, conversion is the bijective base-26 letter encoding, the
two directions are exact inverses, and per the dollar-anchor handling of
shared formulas a `$` is accepted before the column or row part and
stripped before conversion. -/

def TotalCellChars : Nat := 32767

def TotalColumns : Nat := 16384

def TotalRows : Nat := 1048576

def columnNameToNumberL (letters : List Char) : Nat :=
  letters.foldl (fun a c => a * 26 + letterVal c) 0

/-- Modelled from the spec: cellToCoordinates fails with an invalid-cell-name
error unless the reference matches the `[A-Z]+[1-9][0-9]*` pattern within the
format bounds; `$` anchors are tolerated and stripped. -/
def cellNameToCoordinates (s : String) : GoM (Nat × Nat) :=
  let cs := s.data
  let colPart := cs.takeWhile (fun c => isUpCh c || c == '$')
  let rowPart := cs.drop colPart.length
  let letters := colPart.filter (fun c => c != '$')
  if letters.isEmpty then
    .error (.goError ("cannot convert cell \"" ++ s ++ "\" to coordinates"))
  else if rowPart.isEmpty || !rowPart.all isDigitCh then
    .error (.goError ("cannot convert cell \"" ++ s ++ "\" to coordinates"))
  else
    let row := parseDigitsNat rowPart
    let col := columnNameToNumberL letters
    if row < 1 then
      .error (.goError ("cannot convert cell \"" ++ s ++ "\" to coordinates"))
    else if col > TotalColumns then
      .error (.goError "the column number must be greater than or equal to 1 and less than or equal to 16384")
    else if row > TotalRows then
      .error (.goError "row number exceeds maximum limit")
    else .ok (col, row)

/-- Bijective base-26 letters of a positive column number, most significant
first (first argument is recursion fuel; fuel at least the number is enough). -/
def columnNumberToNameAux : Nat → Nat → List Char
  | 0, _ => []
  | _ + 1, 0 => []
  | f + 1, n + 1 => columnNumberToNameAux f (n / 26) ++ [letterOf (n % 26)]

/-- Modelled from the spec: the inverse letter encoding of a column number
inside the format bounds. -/
def columnNumberToName (col : Int) : GoM String :=
  if col < 1 then
    .error (.goError "the column number must be greater than or equal to 1 and less than or equal to 16384")
  else if col > (TotalColumns : Int) then
    .error (.goError "the column number must be greater than or equal to 1 and less than or equal to 16384")
  else .ok ⟨columnNumberToNameAux col.toNat col.toNat⟩

/-- Cell name of in-bounds coordinates, as a total function. -/
def cellNameStr (col row : Nat) : String :=
  ⟨columnNumberToNameAux col col ++ (itoaNat row).data⟩

/-- Modelled from the spec: coordinatesToCell is the exact inverse of
cellToCoordinates on all valid coordinate pairs. -/
def coordinatesToCellName (col row : Nat) : GoM String :=
  if col < 1 || row < 1 then
    .error (.goError ("invalid cell coordinates [" ++ itoaNat col ++ ", " ++ itoaNat row ++ "]"))
  else if col > TotalColumns then
    .error (.goError "the column number must be greater than or equal to 1 and less than or equal to 16384")
  else if row > TotalRows then
    .error (.goError "row number exceeds maximum limit")
  else .ok (cellNameStr col row)

/-- Modelled from the spec: sortCoordinates normalizes the 4-tuple so that
x1 ≤ x2 and y1 ≤ y2, so "D6:A1" iterates like "A1:D6". -/
def sortCoordinates (x1 y1 x2 y2 : Nat) : Nat × Nat × Nat × Nat :=
  let p := if x2 < x1 then (x2, x1) else (x1, x2)
  let q := if y2 < y1 then (y2, y1) else (y1, y2)
  (p.1, q.1, p.2, q.2)

/-- Modelled from the spec: areaRefToCoordinates("A1:B3") yields [1,1,2,3]
and fails unless the area is exactly two colon-separated cell references. -/
def areaRefToCoordinates (ref : String) : GoM (Nat × Nat × Nat × Nat) :=
  match splitOnCh ':' ref.data with
  | [a, b] => do
    let p ← cellNameToCoordinates ⟨a⟩
    let q ← cellNameToCoordinates ⟨b⟩
    .ok (p.1, p.2, q.1, q.2)
  | _ => .error (.goError ("parameter is invalid: " ++ ref))

/-! ## Worksheet data model -/

/-- Formula element of a cell (xlsxF): content, formula kind tag, shared
group reference and shared group id. -/
structure XlsxF where
  content : String
  t : String
  ref : String
  si : Option Nat
deriving DecidableEq

/-- Cell element (xlsxC): reference string, style index, type tag, raw
value, optional formula. -/
structure XlsxC where
  r : String
  s : Nat
  t : String
  v : String
  f : Option XlsxF
deriving DecidableEq

/-- Row element (xlsxRow): 1-based row number and its cells. -/
structure XlsxRow where
  r : Nat
  c : List XlsxC
deriving DecidableEq

/-- Worksheet: its rows plus the merge-cell reference list. -/
structure Worksheet where
  rows : List XlsxRow
  mergeCells : List String
deriving DecidableEq

def blankCell (name : String) : XlsxC := ⟨name, 0, "", "", none⟩

/-! ## Densification: checkSheet and checkRow -/

/-- checkSheet fills each missing row element so the row list is continuous:
the height is the larger of the stored row count and the last row's number,
and every index 1..height gets the matching stored row (the last stored row
with that number, as the Go index map is overwritten in iteration order) or
a synthesized empty row. -/
def checkSheet (ws : Worksheet) : Worksheet :=
  let n := ws.rows.length
  let height :=
    match ws.rows.getLast? with
    | some lastRow => if lastRow.r ≥ n then lastRow.r else n
    | none => n
  let newRows := (List.range height).map (fun i =>
    match ws.rows.reverse.find? (fun rw => rw.r == i + 1) with
    | some rw => rw
    | none => ⟨i + 1, []⟩)
  { ws with rows := newRows }

/-- First pass of checkRow over one row: give every cell without an r
attribute a computed reference, tracking the running column count (a cell
naming a larger column advances the count). -/
def fillCells (rowNum : Nat) : Nat → List XlsxC → GoM (List XlsxC)
  | _, [] => .ok []
  | rCount, c :: cs =>
    let rCount := rCount + 1
    if c.r != "" then do
      let p ← cellNameToCoordinates c.r
      let rCount := if p.1 > rCount then p.1 else rCount
      let rest ← fillCells rowNum rCount cs
      .ok (c :: rest)
    else
      let name :=
        match coordinatesToCellName rCount rowNum with
        | .ok nm => nm
        | .error _ => ""
      (fillCells rowNum rCount cs).map (fun rest => { c with r := name } :: rest)

/-- Go slice assignment; writing past the end is a runtime panic. -/
def setCellAt (l : List XlsxC) (idx : Nat) (c : XlsxC) : GoM (List XlsxC) :=
  if idx < l.length then .ok (l.set idx c)
  else .error (.goPanic "runtime error: index out of range")

/-- Build the blank cells for columns colIdx+1 .. colIdx+rem of a rebuilt
row (the Go append loop over colIdx, written by remaining count). -/
def mkBlankCellsFrom (rowNum : Nat) : Nat → Nat → GoM (List XlsxC)
  | _, 0 => .ok []
  | colIdx, rem + 1 => do
    let nm ← coordinatesToCellName (colIdx + 1) rowNum
    let rest ← mkBlankCellsFrom rowNum (colIdx + 1) rem
    .ok (blankCell nm :: rest)

def mkBlankCells (rowNum lastCol : Nat) : GoM (List XlsxC) :=
  mkBlankCellsFrom rowNum 0 lastCol

def copyCellsInto (olds : List XlsxC) (acc : List XlsxC) : GoM (List XlsxC) :=
  olds.foldlM (fun acc c => do
    let p ← cellNameToCoordinates c.r
    setCellAt acc (p.1 - 1) c) acc

/-- Second pass of checkRow over one row: when the column of the last cell
exceeds the cell count, rebuild the row as a gap-free list of blank cells
with computed references and copy the stored cells into their positions. -/
def checkRowOne (rowIdx : Nat) (row : XlsxRow) : GoM XlsxRow :=
  if row.c.length = 0 then .ok row
  else do
    let cells ← fillCells (rowIdx + 1) 0 row.c
    match cells.getLast? with
    | none => .error (.goPanic "runtime error: index out of range")
    | some lastCell => do
      let p ← cellNameToCoordinates lastCell.r
      if cells.length < p.1 then do
        let blanks ← mkBlankCells (rowIdx + 1) p.1
        let newC ← copyCellsInto cells blanks
        .ok { row with c := newC }
      else .ok { row with c := cells }

def checkRows : Nat → List XlsxRow → GoM (List XlsxRow)
  | _, [] => .ok []
  | i, r :: rs => do
    let r' ← checkRowOne i r
    let rs' ← checkRows (i + 1) rs
    .ok (r' :: rs')

/-- checkRow checks and fills the column elements of every row so each row
is continuous. -/
def checkRow (ws : Worksheet) : GoM Worksheet := do
  let rows ← checkRows 0 ws.rows
  pure { ws with rows := rows }

/-- The densification workSheetReader performs on first load of a sheet,
guarded by the checked flag: checkSheet then checkRow. -/
def densify (ws : Worksheet) : GoM Worksheet := checkRow (checkSheet ws)

/-! ## Merge-cell redirection and area membership -/

def cellInRef (cell : Nat × Nat) (ref : Nat × Nat × Nat × Nat) : Bool :=
  cell.1 ≥ ref.1 && cell.1 ≤ ref.2.2.1 && cell.2 ≥ ref.2.1 && cell.2 ≤ ref.2.2.2

/-- checkCellInArea determines whether a coordinate lies inside an area
reference ("B9" in "A1:B9"); a malformed area (not two colon-separated
parts) yields false without error. -/
def checkCellInArea (cell area : String) : GoM Bool := do
  let p ← cellNameToCoordinates cell
  if (splitOnCh ':' area.data).length ≠ 2 then pure false
  else do
    let coords ← areaRefToCoordinates area
    pure (cellInRef p coords)

/-- mergeCellsParser uppercases the axis and redirects it to the anchor
(first) cell of any merged area that contains it. -/
def mergeCellsParser (ws : Worksheet) (axis : String) : GoM String := do
  ws.mergeCells.foldlM (fun ax ref => do
    let inArea ← checkCellInArea ax ref
    if inArea then pure (⟨(splitOnCh ':' ref.data).headD []⟩ : String)
    else pure ax) (upStr axis)

/-! ## File aggregate

The File holds the per-name worksheet cache (worksheets here are the
already loaded, already checked instances workSheetReader caches) and the
shared string table state. -/

structure FileM where
  sheets : List (String × Worksheet)
  sst : List String
  sharedStringsMap : List (String × Nat)
  sstCount : Nat
  sstUniqueCount : Nat
deriving DecidableEq

/-- workSheetReader resolves a sheet name to its worksheet; an unknown name
is an explicit error.  The lazy XML decode and checked-flag bookkeeping are
load-time I/O; the cached, checked instance is what this model stores. -/
def workSheetReaderM (f : FileM) (sheet : String) : GoM Worksheet :=
  match f.sheets.find? (fun p => p.1 == sheet) with
  | some p => .ok p.2
  | none => .error (.goError ("sheet " ++ sheet ++ " is not exist"))

/-- Modelled from the spec: the cell value getter dereferences the shared
string table for string-table-typed cells (an index past the table is an
index-out-of-range failure) and otherwise returns the raw value; the
number-format renderer is an external collaborator, the identity on the
unstyled cells in scope. -/
def getValueFrom (f : FileM) (c : XlsxC) : GoM String :=
  if c.t == "s" then
    match parseNatOpt c.v with
    | none => .error (.goError ("strconv.Atoi: parsing \"" ++ c.v ++ "\": invalid syntax"))
    | some idx =>
      match f.sst.get? idx with
      | some s => .ok s
      | none => .error (.goError "IndexOutOfRange")
  else .ok c.v

def lastRowNum (ws : Worksheet) : Nat :=
  match ws.rows.getLast? with
  | some r => r.r
  | none => 0

def scanRowCells (ws : Worksheet) (fn : Worksheet → XlsxC → GoM (String × Bool))
    (ax : String) : List XlsxC → GoM (Option String)
  | [] => pure none
  | c :: cs =>
    if ax != c.r then scanRowCells ws fn ax cs
    else do
      let r ← fn ws c
      if r.2 then pure (some r.1) else scanRowCells ws fn ax cs

def scanRows (ws : Worksheet) (fn : Worksheet → XlsxC → GoM (String × Bool))
    (row : Nat) (ax : String) : List XlsxRow → GoM String
  | [] => pure ""
  | rw :: rest =>
    if rw.r ≠ row then scanRows ws fn row ax rest
    else do
      match ← scanRowCells ws fn ax rw.c with
      | some v => pure v
      | none => scanRows ws fn row ax rest

/-- getCellStringFunc: the common read workflow of the GetCell* getters.
After merge redirection and name validation, a row number beyond the last
stored row reads as "" with no error, as does a coordinate with no
matching stored cell. -/
def getCellStringFunc (f : FileM) (sheet axis : String)
    (fn : Worksheet → XlsxC → GoM (String × Bool)) : GoM String := do
  let ws ← workSheetReaderM f sheet
  let ax ← mergeCellsParser ws axis
  let p ← cellNameToCoordinates ax
  if p.2 > lastRowNum ws then pure ""
  else scanRows ws fn p.2 ax ws.rows

/-- GetCellValue reads the formatted value of a cell. -/
def GetCellValue (f : FileM) (sheet axis : String) : GoM String :=
  getCellStringFunc f sheet axis (fun _ c => do
    let v ← getValueFrom f c
    pure (v, true))

/-! ## Shared string table -/

/-- Modelled from the spec: the shared string pool matches by exact byte
content with no normalization (the XML-escaping pass is the identity on
the strings in scope). -/
def bstrMarshal (s : String) : String := s

/-- setCellStr truncates to the cell character limit and marshals; only the
value component is needed here. -/
def setCellStrV (value : String) : String := bstrMarshal ⟨value.data.take TotalCellChars⟩

/-- setSharedString: return the existing index when the content is already
pooled, else append and return the fresh index.  The temp-file spill
handling of sharedStringsLoader is I/O and a no-op on the in-memory state
modelled here. -/
def setSharedString (f : FileM) (val : String) : GoM (Nat × FileM) :=
  match f.sharedStringsMap.find? (fun p => p.1 == val) with
  | some p => .ok (p.2, f)
  | none =>
    let uniq := f.sstUniqueCount + 1
    let f' : FileM :=
      { f with
        sstCount := f.sstCount + 1
        sstUniqueCount := uniq
        sst := f.sst ++ [val]
        sharedStringsMap := f.sharedStringsMap ++ [(setCellStrV val, uniq - 1)] }
    .ok (uniq - 1, f')

/-! ## Shared formulas -/

def firstDollarIdx (cs : List Char) : Int :=
  match cs.findIdx? (fun c => c == '$') with
  | some i => (i : Int)
  | none => -1

def lastDollarIdx (cs : List Char) : Int :=
  match cs.reverse.findIdx? (fun c => c == '$') with
  | some i => (cs.length : Int) - 1 - (i : Int)
  | none => -1

/-- shiftCell shifts a cell reference by a column/row delta, leaving a
dollar-anchored column or row part unshifted. -/
def shiftCell (cellID : String) (dCol dRow : Int) : String :=
  let fc :=
    match cellNameToCoordinates cellID with
    | .ok p => p
    | .error _ => (0, 0)
  let cs := cellID.data
  let colPair : String × Int :=
    if firstDollarIdx cs == 0 then ("$", (fc.1 : Int)) else ("", (fc.1 : Int) + dCol)
  let rowPair : String × Int :=
    if lastDollarIdx cs > 0 then ("$", (fc.2 : Int)) else ("", (fc.2 : Int) + dRow)
  let colName :=
    match columnNumberToName colPair.2 with
    | .ok nm => nm
    | .error _ => ""
  colPair.1 ++ colName ++ rowPair.1 ++ itoaInt rowPair.2

def subChars (l : List Char) (a b : Nat) : List Char := (l.take b).drop a

/-- Inner scanner of parseSharedFormula: advance over digit/anchor and
letter characters of a candidate reference, reporting whether a digit or
anchor was found (first argument is fuel; the list length is enough). -/
def psfScan (orig : List Char) : Nat → Nat → Bool → Nat × Bool
  | 0, e, fnd => (e, fnd)
  | f + 1, e, fnd =>
    match orig.get? e with
    | none => (e, fnd)
    | some idc =>
      if isDigitCh idc || idc == '$' then psfScan orig f (e + 1) true
      else if isUpCh idc then
        if fnd then (e, fnd) else psfScan orig f (e + 1) fnd
      else (e, fnd)

/-- Outer scanner of parseSharedFormula: copy literal text, skip quoted
string literals, and rewrite every cell reference through shiftCell
(first argument is fuel; the list length plus one is enough since every
step advances the position). -/
def psfLoop (orig : List Char) (dCol dRow : Int) :
    Nat → Nat → Nat → List Char → Bool → List Char × Nat
  | 0, _, st, res, _ => (res, st)
  | f + 1, e, st, res, lit =>
    match orig.get? e with
    | none => (res, st)
    | some ch =>
      let lit := if ch == quoteCh then !lit else lit
      if lit then psfLoop orig dCol dRow f (e + 1) st res lit
      else if isUpCh ch || ch == '$' then
        let res := res ++ subChars orig st e
        let st := e
        let scanned := psfScan orig orig.length (e + 1) false
        if scanned.2 then
          psfLoop orig dCol dRow f (scanned.1 + 1) scanned.1
            (res ++ (shiftCell ⟨subChars orig st scanned.1⟩ dCol dRow).data) lit
        else psfLoop orig dCol dRow f (scanned.1 + 1) st res lit
      else psfLoop orig dCol dRow f (e + 1) st res lit

/-- parseSharedFormula rewrites the dynamic part of a shared formula for a
target cell at the given column/row distance from the origin. -/
def parseSharedFormula (dCol dRow : Int) (orig : List Char) : String × Nat :=
  let r := psfLoop orig dCol dRow (orig.length + 1) 0 0 [] false
  (⟨r.1⟩, r.2)

def findSharedMaster (ws : Worksheet) (si : Nat) : Option XlsxC :=
  ws.rows.findSome? (fun r => r.c.find? (fun c =>
    match c.f with
    | some ff => ff.ref != "" && ff.t == "shared" && ff.si == some si
    | none => false))

/-- getSharedFormula locates the origin cell of a shared-formula group and
remaps its formula text to the queried cell by the column/row delta. -/
def getSharedFormula (ws : Worksheet) (si : Nat) (axis : String) : String :=
  match findSharedMaster ws si with
  | none => ""
  | some c =>
    let p := (cellNameToCoordinates axis).toOption.getD (0, 0)
    let sp := (cellNameToCoordinates c.r).toOption.getD (0, 0)
    let dCol : Int := (p.1 : Int) - (sp.1 : Int)
    let dRow : Int := (p.2 : Int) - (sp.2 : Int)
    let content :=
      match c.f with
      | some ff => ff.content
      | none => ""
    let orig := content.data
    let r := parseSharedFormula dCol dRow orig
    if r.2 < orig.length then r.1 ++ ⟨orig.drop r.2⟩ else r.1

/-- GetCellFormula reads the formula of a cell, resolving members of a
shared-formula group through getSharedFormula. -/
def GetCellFormula (f : FileM) (sheet axis : String) : GoM String :=
  getCellStringFunc f sheet axis (fun x c =>
    match c.f with
    | none => pure ("", false)
    | some ff =>
      if ff.t == "shared" then
        match ff.si with
        | some si => pure (getSharedFormula x si c.r, true)
        | none => pure (ff.content, true)
      else pure (ff.content, true))

/-! ## Formula evaluation tokens

Tokens carry the efp lexer's string-valued type and subtype tags
("Operand", "Function", "Subexpression", "Argument", "OperatorPrefix",
"OperatorInfix"; "Start", "Stop", "Number", "Text", "Logical", "Range"). -/

structure Token where
  tvalue : String
  ttype : String
  tsubtype : String
deriving DecidableEq, Inhabited

def mkNumTok (s : String) : Token := ⟨s, "Operand", "Number"⟩

/-- Formula error strings. -/
def formulaErrorDIV : String := "#DIV/0!"

def formulaErrorNAME : String := "#NAME?"

def formulaErrorNUM : String := "#NUM!"

def formulaErrorVALUE : String := "#VALUE!"

/-- getPriority: arithmetic operator priority (unary minus 3, mul/div 2,
add/sub 1, open subexpression marker 0). -/
def getPriority (token : Token) : Nat :=
  let pri : Nat :=
    match token.tvalue with
    | "*" => 2
    | "/" => 2
    | "+" => 1
    | "-" => 1
    | _ => 0
  let pri := if token.tvalue == "-" && token.ttype == "OperatorPrefix" then 3 else pri
  if token.tsubtype == "Start" && token.ttype == "Subexpression" then 0 else pri

/-- calculate: evaluate one basic arithmetic operation against the operand
stack.  Popping an empty stack is the Go interface-assertion panic; operand
text that fails to parse is the strconv error; a division whose right
operand is zero is the #DIV/0! error, returned before any push. -/
def calculate (opdStack : List Token) (opt : Token) : GoM (List Token) :=
  if opt.tvalue == "-" && opt.ttype == "OperatorPrefix" then
    match opdStack with
    | [] => .error (.goPanic "interface conversion: interface is nil, not efp.Token")
    | opd :: rest =>
      match parseGoFloat opd.tvalue with
      | none => .error (parseFloatErr opd.tvalue)
      | some v => .ok (mkNumTok (formatG (qSub qZero v)) :: rest)
  else if opt.tvalue == "+" then
    match opdStack with
    | rOpd :: lOpd :: rest =>
      match parseGoFloat lOpd.tvalue with
      | none => .error (parseFloatErr lOpd.tvalue)
      | some l =>
        match parseGoFloat rOpd.tvalue with
        | none => .error (parseFloatErr rOpd.tvalue)
        | some r => .ok (mkNumTok (formatG (qAdd l r)) :: rest)
    | _ => .error (.goPanic "interface conversion: interface is nil, not efp.Token")
  else if opt.tvalue == "-" && opt.ttype == "OperatorInfix" then
    match opdStack with
    | rOpd :: lOpd :: rest =>
      match parseGoFloat lOpd.tvalue with
      | none => .error (parseFloatErr lOpd.tvalue)
      | some l =>
        match parseGoFloat rOpd.tvalue with
        | none => .error (parseFloatErr rOpd.tvalue)
        | some r => .ok (mkNumTok (formatG (qSub l r)) :: rest)
    | _ => .error (.goPanic "interface conversion: interface is nil, not efp.Token")
  else if opt.tvalue == "*" then
    match opdStack with
    | rOpd :: lOpd :: rest =>
      match parseGoFloat lOpd.tvalue with
      | none => .error (parseFloatErr lOpd.tvalue)
      | some l =>
        match parseGoFloat rOpd.tvalue with
        | none => .error (parseFloatErr rOpd.tvalue)
        | some r => .ok (mkNumTok (formatG (qMul l r)) :: rest)
    | _ => .error (.goPanic "interface conversion: interface is nil, not efp.Token")
  else if opt.tvalue == "/" then
    match opdStack with
    | rOpd :: lOpd :: rest =>
      match parseGoFloat lOpd.tvalue with
      | none => .error (parseFloatErr lOpd.tvalue)
      | some l =>
        match parseGoFloat rOpd.tvalue with
        | none => .error (parseFloatErr rOpd.tvalue)
        | some r =>
          let result := qDiv l r
          if qEqv r qZero then .error (.goError formulaErrorDIV)
          else .ok (mkNumTok (formatG result) :: rest)
    | _ => .error (.goPanic "interface conversion: interface is nil, not efp.Token")
  else .ok opdStack

/-! ## Reference and range resolution -/

/-- Structure of a cell reference. -/
structure CellRef where
  Col : Nat
  Row : Nat
  Sheet : String
deriving DecidableEq

/-- Structure of a cell range. -/
structure CellRange where
  From : CellRef
  To : CellRef
deriving DecidableEq

/-- Insertion-ordered update of the range filter map (the Go map is
unordered; this model fixes insertion order to make results
deterministic, which only affects value order, never the error result). -/
def upsertFilter (m : List (String × String)) (k v : String) : List (String × String) :=
  if m.any (fun p => p.1 == k) then m.map (fun p => if p.1 == k then (k, v) else p)
  else m ++ [(k, v)]

def natRangeFromTo (lo hi : Nat) : List Nat := (List.range (hi + 1 - lo)).map (· + lo)

/-- rangeResolver: extract cell values for the collected references and
ranges.  The state threads the filter map plus the function's named err
variable: a sheet mismatch between range endpoints assigns the #VALUE!
error to it, and every later successful cell read overwrites it, exactly
as the Go named return value behaves. -/
def rangeResolver (f : FileM) (cellRefs : List CellRef) (cellRanges : List CellRange) :
    GoM (List String) := do
  let st ← cellRanges.foldlM
    (fun (st : List (String × String) × Option GoErr) cr => do
      let errAcc := if cr.From.Sheet != cr.To.Sheet then some (GoErr.goError formulaErrorVALUE) else st.2
      let rng := sortCoordinates cr.From.Col cr.From.Row cr.To.Col cr.To.Row
      (natRangeFromTo rng.1 rng.2.2.1).foldlM
        (fun (st : List (String × String) × Option GoErr) col =>
          (natRangeFromTo rng.2.1 rng.2.2.2).foldlM
            (fun (st : List (String × String) × Option GoErr) row => do
              let cell ← coordinatesToCellName col row
              let v ← GetCellValue f cr.From.Sheet cell
              pure (upsertFilter st.1 cell v, (none : Option GoErr)))
            st)
        (st.1, errAcc))
    (([], none) : List (String × String) × Option GoErr)
  let st ← cellRefs.foldlM
    (fun (st : List (String × String) × Option GoErr) cr => do
      let cell ← coordinatesToCellName cr.Col cr.Row
      let v ← GetCellValue f cr.Sheet cell
      pure (upsertFilter st.1 cell v, (none : Option GoErr)))
    st
  match st.2 with
  | some e => .error e
  | none => .ok (st.1.map (fun p => p.2))

/-- parseReference: split the reference on ':' and each part on '!',
collecting single references and (from, to) range pairs; an unqualified
part following a pending reference closes a range whose To side keeps an
empty sheet name.  The pending-reference list of the Go code never holds
more than one element and is an Option here. -/
def parseReference (f : FileM) (sheet reference : String) : GoM (List String) := do
  let reference : String := ⟨reference.data.filter (fun c => c != '$')⟩
  let st ← (splitOnCh ':' reference.data).foldlM
    (fun (st : Option CellRef × List CellRange × List CellRef) ref => do
      let tokens := splitOnCh '!' ref
      match tokens with
      | [sheetName, cellTok] => do
        let p ← cellNameToCoordinates ⟨cellTok⟩
        let cr : CellRef := ⟨p.1, p.2, ⟨sheetName⟩⟩
        match st.1 with
        | some e => pure (some cr, st.2.1, st.2.2 ++ [e])
        | none => pure (some cr, st.2.1, st.2.2)
      | first :: _ => do
        let p ← cellNameToCoordinates ⟨first⟩
        match st.1 with
        | none =>
          let cr : CellRef := ⟨p.1, p.2, sheet⟩
          pure (some cr, st.2.1, st.2.2)
        | some e =>
          let cr : CellRef := ⟨p.1, p.2, ""⟩
          pure (none, st.2.1 ++ [⟨e, cr⟩], st.2.2)
      | [] => pure st)
    ((none, [], []) : Option CellRef × List CellRange × List CellRef)
  let cellRefs :=
    match st.1 with
    | some e => st.2.2 ++ [e]
    | none => st.2.2
  rangeResolver f cellRefs st.2.1

/-- parseToken: outer-scope operator-precedence step.  A range token is
resolved first and must match exactly one cell; operators reduce the
stacks by priority; subexpression markers open and close with eager
reduction; number operands are pushed.  The branches run in sequence like
the Go conditionals. -/
def drainWhileGE (tp : Nat) : List Token → List Token → GoM (List Token × List Token)
  | opd, [] => .ok (opd, [])
  | opd, top :: rest =>
    if tp ≤ getPriority top then do
      let opd' ← calculate opd top
      drainWhileGE tp opd' rest
    else .ok (opd, top :: rest)

def drainToParen : List Token → List Token → GoM (List Token × List Token)
  | _, [] => .error (.goPanic "interface conversion: interface is nil, not efp.Token")
  | opd, top :: rest =>
    if top.tsubtype != "Start" && top.ttype != "Subexpression" then do
      let opd' ← calculate opd top
      drainToParen opd' rest
    else .ok (opd, rest)

def isArithOpTok (token : Token) : Bool :=
  (token.tvalue == "-" && token.ttype == "OperatorPrefix") ||
    token.tvalue == "+" || token.tvalue == "-" || token.tvalue == "*" || token.tvalue == "/"

def parseToken (f : FileM) (sheet : String) (token : Token)
    (opdStack optStack : List Token) : GoM (List Token × List Token) := do
  let token ←
    if token.tsubtype == "Range" then do
      let result ←
        match parseReference f sheet token.tvalue with
        | .ok r => pure r
        | .error _ => throw (.goError formulaErrorNAME)
      if result.length ≠ 1 then throw (.goError formulaErrorVALUE)
      else pure (mkNumTok (result.headD ""))
    else pure token
  let st ←
    if isArithOpTok token then
      match optStack with
      | [] => pure (opdStack, [token])
      | topOpt :: _ =>
        if getPriority token > getPriority topOpt then
          pure (opdStack, token :: optStack)
        else do
          let st ← drainWhileGE (getPriority token) opdStack optStack
          pure (st.1, token :: st.2)
    else pure (opdStack, optStack)
  let st :=
    if token.ttype == "Subexpression" && token.tsubtype == "Start" then (st.1, token :: st.2)
    else st
  let st ←
    if token.ttype == "Subexpression" && token.tsubtype == "Stop" then drainToParen st.1 st.2
    else pure st
  if token.ttype == "Operand" && token.tsubtype == "Number" then pure (token :: st.1, st.2)
  else pure st

/-! ## Function library

Each function takes the resolved argument token list and returns the Go
(result, error) pair in GoM.  Transcendental results (inverse trig,
irrational roots and powers) evaluate to the explicit unmodelled fraction;
every domain and arity check is mirrored exactly. -/

def qUnmodelled : Qv := ⟨0, 0⟩

/-- Integer square root by bounded search (kernel-reducible). -/
def natSqrtLoop (n : Nat) : Nat → Nat → Nat
  | 0, k => k
  | f + 1, k => if (k + 1) * (k + 1) ≤ n then natSqrtLoop n f (k + 1) else k

def natSqrt (n : Nat) : Nat := natSqrtLoop n n 0

def qSqrt (x : Qv) : Qv :=
  if qIsInt x then
    let n := qToInt x
    if 0 ≤ n && natSqrt n.toNat * natSqrt n.toNat = n.toNat then qOfInt (natSqrt n.toNat : Int)
    else qUnmodelled
  else qUnmodelled

def qPow (x y : Qv) : Qv :=
  if qIsInt y && !qLt y qZero then qPowNat x (qToInt y).toNat else qUnmodelled

def qCeil (x : Qv) : Qv :=
  if x.den == 0 then x
  else
    let a := if x.den < 0 then -x.num else x.num
    let b := if x.den < 0 then -x.den else x.den
    ⟨-((-a) / b), 1⟩

def oneNumArg (fname : String) (args : List Token) : GoM Qv :=
  if args.length ≠ 1 then .error (.goError (fname ++ " requires 1 numeric arguments"))
  else
    match parseGoFloat (args.headD default).tvalue with
    | none => .error (parseFloatErr (args.headD default).tvalue)
    | some v => .ok v

def parseNumTok (t : Token) : GoM Qv :=
  match parseGoFloat t.tvalue with
  | none => .error (parseFloatErr t.tvalue)
  | some v => .ok v

def ABS (args : List Token) : GoM String := do
  let v ← oneNumArg "ABS" args
  pure (formatG (qAbs v))

def ACOS (args : List Token) : GoM String := do
  let _ ← oneNumArg "ACOS" args
  pure (formatG qUnmodelled)

def ACOSH (args : List Token) : GoM String := do
  let _ ← oneNumArg "ACOSH" args
  pure (formatG qUnmodelled)

def ACOT (args : List Token) : GoM String := do
  let _ ← oneNumArg "ACOT" args
  pure (formatG qUnmodelled)

def ACOTH (args : List Token) : GoM String := do
  let _ ← oneNumArg "ACOTH" args
  pure (formatG qUnmodelled)

def romanDigit (c : Char) : Int :=
  match c with
  | 'I' => 1
  | 'V' => 5
  | 'X' => 10
  | 'L' => 50
  | 'C' => 100
  | 'D' => 500
  | 'M' => 1000
  | _ => 0

/-- Validation loop of ARABIC: none is the early #VALUE! return on a
repeated 5/50/500 digit after itself or a digit exactly double the
preceding one; otherwise the accumulated (sign-applied) value. -/
def arabicLoop : List Char → Int → Int → Int → Option Int
  | [], val, _, pre => some (pre * val)
  | ch :: cs, val, last, pre =>
    if ch = '-' then arabicLoop cs val last (-1)
    else
      let digit := romanDigit ch
      let val := val + digit
      if last = digit && (last == 5 || last == 50 || last == 500) then none
      else if 2 * last = digit then none
      else
        let val := if last < digit then val - 2 * last else val
        arabicLoop cs val digit pre

def ARABIC (args : List Token) : GoM String :=
  if args.length ≠ 1 then .error (.goError "ARABIC requires 1 numeric arguments")
  else
    match arabicLoop (args.headD default).tvalue.data 0 0 1 with
    | none => .ok formulaErrorVALUE
    | some r => .ok (itoaInt r)

def ASIN (args : List Token) : GoM String := do
  let _ ← oneNumArg "ASIN" args
  pure (formatG qUnmodelled)

def ASINH (args : List Token) : GoM String := do
  let _ ← oneNumArg "ASINH" args
  pure (formatG qUnmodelled)

def ATAN (args : List Token) : GoM String := do
  let _ ← oneNumArg "ATAN" args
  pure (formatG qUnmodelled)

def ATANH (args : List Token) : GoM String := do
  let _ ← oneNumArg "ATANH" args
  pure (formatG qUnmodelled)

def ATAN2 (args : List Token) : GoM String :=
  if args.length ≠ 2 then .error (.goError "ATAN2 requires 2 numeric arguments")
  else do
    let _x ← parseNumTok (args.getLast?.getD default)
    let _y ← parseNumTok (args.headD default)
    pure (formatG qUnmodelled)

def baseDigitOf (k : Nat) : Char := "0123456789abcdefghijklmnopqrstuvwxyz".data.getD k '0'

def formatIntBaseAux (radix : Nat) : Nat → Nat → List Char
  | 0, _ => []
  | f + 1, n => if n = 0 then [] else formatIntBaseAux radix f (n / radix) ++ [baseDigitOf (n % radix)]

/-- strconv.FormatInt with a radix in 2..36: lowercase digits, sign first. -/
def formatIntBase (i : Int) (radix : Nat) : String :=
  if i = 0 then "0"
  else if i < 0 then "-" ++ ⟨formatIntBaseAux radix i.natAbs i.natAbs⟩
  else ⟨formatIntBaseAux radix i.natAbs i.natAbs⟩

def atoiTok (t : Token) : GoM Int :=
  match parseIntOpt t.tvalue with
  | none => .error (.goError ("strconv.Atoi: parsing \"" ++ t.tvalue ++ "\": invalid syntax"))
  | some i => .ok i

def BASE (args : List Token) : GoM String :=
  if args.length < 2 then .error (.goError "BASE requires at least 2 arguments")
  else if args.length > 3 then .error (.goError "BASE allows at most 3 arguments")
  else do
    let number ← parseNumTok (args.headD default)
    let radix ← atoiTok ((args.get? 1).getD default)
    if radix < 2 || radix > 36 then throw (.goError "radix must be an integer ≥ 2 and ≤ 36")
    else do
      let minLength ← if args.length > 2 then atoiTok (args.getLast?.getD default) else pure 0
      let result := formatIntBase (qTrunc number).num radix.toNat
      let result :=
        if (result.data.length : Int) < minLength then
          (⟨List.replicate (minLength - result.data.length).toNat '0'⟩ : String) ++ result
        else result
      pure (upStr result)

def CEILING (args : List Token) : GoM String :=
  if args.length == 0 then .error (.goError "CEILING requires at least 1 argument")
  else if args.length > 2 then .error (.goError "CEILING allows at most 2 arguments")
  else do
    let number ← parseNumTok (args.headD default)
    let significance := if qLt number qZero then qOfInt (-1) else qOfInt 1
    let significance ←
      if args.length > 1 then parseNumTok (args.getLast?.getD default) else pure significance
    if qLt significance qZero && qLt qZero number then
      throw (.goError "negative sig to CEILING invalid")
    else if args.length == 1 then pure (formatG (qCeil number))
    else do
      let q := qDiv number significance
      let ip := qTrunc q
      let res := qSub q ip
      let ip := if qLt qZero res then qAdd ip (qOfInt 1) else ip
      pure (formatG (qMul ip significance))

def CEILINGMATH (args : List Token) : GoM String :=
  if args.length == 0 then .error (.goError "CEILING.MATH requires at least 1 argument")
  else if args.length > 3 then .error (.goError "CEILING.MATH allows at most 3 arguments")
  else do
    let number ← parseNumTok (args.headD default)
    let significance := if qLt number qZero then qOfInt (-1) else qOfInt 1
    let significance ←
      if args.length > 1 then parseNumTok ((args.get? 1).getD default) else pure significance
    if args.length == 1 then pure (formatG (qCeil number))
    else do
      let mode ←
        if args.length > 2 then parseNumTok (args.getLast?.getD default) else pure (qOfInt 1)
      let q := qDiv number significance
      let val := qTrunc q
      let res := qSub q val
      let val :=
        if !qEqv res qZero then
          if qLt qZero number then qAdd val (qOfInt 1)
          else if qLt mode qZero then qSub val (qOfInt 1)
          else val
        else val
      pure (formatG (qMul val significance))

def gcdSubLoop : Nat → Int → Int → Int
  | 0, x, _ => x
  | f + 1, x, y => if x = y then x else if x > y then gcdSubLoop f (x - y) y else gcdSubLoop f x (y - x)

/-- gcd helper of GCD/LCM: truncate both arguments and run the Go
subtraction loop (fuel covers every terminating Go execution; the Go loop
diverges outside the guarded nonnegative domain). -/
def goGcd (xq yq : Qv) : Qv :=
  let x := qTrunc xq
  let y := qTrunc yq
  if x.num = 0 then y
  else if y.num = 0 then x
  else ⟨gcdSubLoop (x.num.natAbs + y.num.natAbs + 1) x.num y.num, 1⟩

def goLcm (aq bq : Qv) : Qv :=
  let a := qTrunc aq
  let b := qTrunc bq
  if a.num = 0 && b.num = 0 then qZero
  else qDiv (qMul a b) (goGcd a b)

/-- Parse the argument tokens of GCD/LCM, skipping tokens with empty text. -/
def parseNumList (args : List Token) : GoM (List Qv) :=
  args.foldlM
    (fun (nums : List Qv) arg =>
      if arg.tvalue == "" then pure nums
      else
        match parseGoFloat arg.tvalue with
        | none => throw (parseFloatErr arg.tvalue)
        | some v => pure (nums ++ [v]))
    []

def GCD (args : List Token) : GoM String :=
  if args.length == 0 then .error (.goError "GCD requires at least 1 argument")
  else do
    let nums ← parseNumList args
    match nums with
    | [] => .error (.goPanic "runtime error: index out of range [0] with length 0")
    | n0 :: restNums =>
      if qLt n0 qZero then .error (.goError "GCD only accepts positive arguments")
      else if restNums.isEmpty then pure (formatG n0)
      else do
        let cd ← restNums.foldlM
          (fun cd ni =>
            if qLt ni qZero then throw (.goError "GCD only accepts positive arguments")
            else pure (goGcd cd ni))
          n0
        pure (formatG cd)

def LCM (args : List Token) : GoM String :=
  if args.length == 0 then .error (.goError "LCM requires at least 1 argument")
  else do
    let nums ← parseNumList args
    match nums with
    | [] => .error (.goPanic "runtime error: index out of range [0] with length 0")
    | n0 :: restNums =>
      if qLt n0 qZero then .error (.goError "LCM only accepts positive arguments")
      else if restNums.isEmpty then pure (formatG n0)
      else do
        let cm ← restNums.foldlM
          (fun cm ni =>
            if qLt ni qZero then throw (.goError "LCM only accepts positive arguments")
            else pure (goLcm cm ni))
          n0
        pure (formatG cm)

def POWER (args : List Token) : GoM String :=
  if args.length ≠ 2 then .error (.goError "POWER requires 2 numeric arguments")
  else do
    let x ← parseNumTok (args.headD default)
    let y ← parseNumTok (args.getLast?.getD default)
    if qEqv x qZero && qEqv y qZero then throw (.goError formulaErrorNUM)
    else if qEqv x qZero && qLt y qZero then throw (.goError formulaErrorDIV)
    else pure (formatG (qPow x y))

def PRODUCT (args : List Token) : GoM String := do
  let product ← args.foldlM
    (fun (product : Qv) arg =>
      if arg.tvalue == "" then pure product
      else
        match parseGoFloat arg.tvalue with
        | none => throw (parseFloatErr arg.tvalue)
        | some v => pure (qMul product v))
    (qOfInt 1)
  pure (formatG product)

def SIGN (args : List Token) : GoM String := do
  let val ← oneNumArg "SIGN" args
  if qLt val qZero then pure "-1"
  else if qLt qZero val then pure "1"
  else pure "0"

def SQRT (args : List Token) : GoM String := do
  let val ← oneNumArg "SQRT" args
  if qLt val qZero then throw (.goError formulaErrorNUM)
  else pure (formatG (qSqrt val))

def SUM (args : List Token) : GoM String := do
  let sum ← args.foldlM
    (fun (sum : Qv) arg =>
      if arg.tvalue == "" then pure sum
      else
        match parseGoFloat arg.tvalue with
        | none => throw (parseFloatErr arg.tvalue)
        | some v => pure (qAdd sum v))
    qZero
  pure (formatG sum)

def QUOTIENT (args : List Token) : GoM String :=
  if args.length ≠ 2 then .error (.goError "QUOTIENT requires 2 numeric arguments")
  else do
    let x ← parseNumTok (args.headD default)
    let y ← parseNumTok (args.getLast?.getD default)
    if qEqv y qZero then throw (.goError formulaErrorDIV)
    else pure (formatG (qTrunc (qDiv x y)))

/-! ## Function dispatch -/

def removeSubstrAux (pat : List Char) : Nat → List Char → List Char
  | 0, l => l
  | _ + 1, [] => []
  | f + 1, c :: cs =>
    if pat.isPrefixOf (c :: cs) then removeSubstrAux pat f ((c :: cs).drop pat.length)
    else c :: removeSubstrAux pat f cs

/-- Strip the _xlfn decoration and dots from a function name (the
strings.NewReplacer pre-pass before dispatch). -/
def stripFnName (s : String) : String :=
  ⟨(removeSubstrAux "_xlfn".data (s.data.length + 1) s.data).filter (fun c => c != '.')⟩

/-- callFuncByName: dispatch a function call by name; a name with no
matching function is the explicit not-supported error. -/
def callFuncByName (name : String) (args : List Token) : GoM String :=
  match name with
  | "ABS" => ABS args
  | "ACOS" => ACOS args
  | "ACOSH" => ACOSH args
  | "ACOT" => ACOT args
  | "ACOTH" => ACOTH args
  | "ARABIC" => ARABIC args
  | "ASIN" => ASIN args
  | "ASINH" => ASINH args
  | "ATAN" => ATAN args
  | "ATANH" => ATANH args
  | "ATAN2" => ATAN2 args
  | "BASE" => BASE args
  | "CEILING" => CEILING args
  | "CEILINGMATH" => CEILINGMATH args
  | "GCD" => GCD args
  | "LCM" => LCM args
  | "POWER" => POWER args
  | "PRODUCT" => PRODUCT args
  | "SIGN" => SIGN args
  | "SQRT" => SQRT args
  | "SUM" => SUM args
  | "QUOTIENT" => QUOTIENT args
  | other => .error (.goError ("not support " ++ other ++ " function"))

/-! ## The infix evaluator -/

def drainAllOps : List Token → List Token → GoM (List Token)
  | opd, [] => .ok opd
  | opd, top :: rest => do
    let opd' ← calculate opd top
    drainAllOps opd' rest

/-- The five cooperating stacks plus the argument list of evalInfixExp. -/
structure EvalSt where
  opd : List Token
  opt : List Token
  opf : List Token
  opfd : List Token
  opft : List Token
  args : List Token
deriving DecidableEq

def emptyEvalSt : EvalSt := ⟨[], [], [], [], [], []⟩

/-- Main loop of evalInfixExp over the token stream (see the algorithm
walk in the Go source): outer-scope parsing while no function is open,
function nesting via opf, immediate range resolution inside a function
scope, argument-separator draining, and function invocation on a stop
token.  The final result is the top of the operand stack after draining
the remaining outer operators. -/
def evalLoop (f : FileM) (sheet : String) : List Token → EvalSt → GoM Token
  | [], st => do
    let opd ← drainAllOps st.opd st.opt
    match opd with
    | t :: _ => .ok t
    | [] => .error (.goPanic "interface conversion: interface is nil, not efp.Token")
  | token :: rest, st => do
    let st ←
      if st.opf.isEmpty then do
        let p ← parseToken f sheet token st.opd st.opt
        pure { st with opd := p.1, opt := p.2 }
      else pure st
    if token.ttype == "Function" && token.tsubtype == "Start" then
      evalLoop f sheet rest { st with opf := token :: st.opf }
    else if st.opf.isEmpty then evalLoop f sheet rest st
    else do
      let nextToken := rest.headD default
      if token.tsubtype == "Range" && !st.opft.isEmpty then do
        let result ←
          match parseReference f sheet token.tvalue with
          | .ok r => pure r
          | .error e => throw e
        if result.length ≠ 1 then throw (.goError formulaErrorVALUE)
        else evalLoop f sheet rest { st with opfd := mkNumTok (result.headD "") :: st.opfd }
      else if token.tsubtype == "Range" &&
          (nextToken.ttype == "Argument" || nextToken.ttype == "Function") then do
        let result ←
          match parseReference f sheet token.tvalue with
          | .ok r => pure r
          | .error e => throw e
        let st := { st with args := st.args ++ result.map mkNumTok }
        if result.isEmpty then throw (.goError formulaErrorVALUE)
        else evalLoop f sheet rest st
      else do
        let p ← parseToken f sheet token st.opfd st.opft
        let st := { st with opfd := p.1, opft := p.2 }
        if token.ttype == "Argument" then do
          let opfd ← drainAllOps st.opfd st.opft
          match opfd with
          | x :: r => evalLoop f sheet rest { st with opfd := r, opft := [], args := st.args ++ [x] }
          | [] => evalLoop f sheet rest { st with opfd := [], opft := [] }
        else do
          let st :=
            if token.ttype == "Operand" && token.tsubtype == "Text" then
              { st with args := st.args ++ [token] }
            else st
          if token.ttype == "Function" && token.tsubtype == "Stop" then do
            let opfd ← drainAllOps st.opfd st.opft
            let argsPair :=
              match opfd with
              | x :: r => (st.args ++ [x], r)
              | [] => (st.args, ([] : List Token))
            let fname := (st.opf.headD default).tvalue
            let result ← callFuncByName (stripFnName fname) argsPair.1
            let opf := st.opf.tail
            if !opf.isEmpty then
              evalLoop f sheet rest
                { st with opf := opf, opfd := mkNumTok result :: argsPair.2, opft := [], args := [] }
            else
              evalLoop f sheet rest
                { st with opf := opf, opd := mkNumTok result :: st.opd,
                          opfd := argsPair.2, opft := [], args := [] }
          else evalLoop f sheet rest st

/-- evalInfixExp: evaluate a lexed infix formula to a single result token. -/
def evalInfixExp (f : FileM) (sheet : String) (tokens : List Token) : GoM Token :=
  evalLoop f sheet tokens emptyEvalSt

/-! ## Lemmas: decimal and base-26 round trips -/

theorem letterOf_spec : ∀ k, k < 26 →
    isUpCh (letterOf k) = true ∧ letterVal (letterOf k) = k + 1 ∧
      (letterOf k != '$') = true ∧ isDigitCh (letterOf k) = false := by decide

theorem digitOf_spec : ∀ k, k < 10 →
    isDigitCh (digitOf k) = true ∧ digitVal (digitOf k) = k ∧
      isUpCh (digitOf k) = false ∧ (digitOf k == '$') = false := by decide

theorem columnNumberToNameAux_zero (g : Nat) : columnNumberToNameAux g 0 = [] := by
  cases g <;> rfl

theorem foldl26_append (xs : List Char) (c : Char) (a : Nat) :
    (xs ++ [c]).foldl (fun a c => a * 26 + letterVal c) a =
      (xs.foldl (fun a c => a * 26 + letterVal c) a) * 26 + letterVal c := by
  simp [List.foldl_append]

theorem columnNumberToNameAux_spec :
    ∀ n, 1 ≤ n → ∀ f, n ≤ f →
      columnNameToNumberL (columnNumberToNameAux f n) = n ∧
        (columnNumberToNameAux f n).all isUpCh = true ∧
        columnNumberToNameAux f n ≠ [] := by
  intro n
  induction n using Nat.strong_induction_on with
  | _ n ih =>
    intro hn f hf
    match n, hn with
    | m + 1, _ =>
      match f, hf with
      | g + 1, hf =>
        have hunf : columnNumberToNameAux (g + 1) (m + 1) =
            columnNumberToNameAux g (m / 26) ++ [letterOf (m % 26)] := rfl
        rw [hunf]
        have hmod : m % 26 < 26 := Nat.mod_lt _ (by omega)
        have hlet := letterOf_spec (m % 26) hmod
        by_cases hq : m / 26 = 0
        · rw [hq, columnNumberToNameAux_zero]
          refine ⟨?_, ?_, by simp⟩
          · have hmm : m % 26 = m := by omega
            rw [hmm] at hlet ⊢
            simp [columnNameToNumberL, hlet.2.1]
          · simp [hlet.1]
        · have hq1 : 1 ≤ m / 26 := by omega
          have hqlt : m / 26 < m + 1 := by
            have := Nat.div_le_self m 26
            omega
          have hqg : m / 26 ≤ g := by
            have := Nat.div_le_self m 26
            omega
          obtain ⟨h1, h2, h3⟩ := ih (m / 26) hqlt hq1 g hqg
          refine ⟨?_, ?_, by simp⟩
          · have hdm := Nat.div_add_mod m 26
            simp only [columnNameToNumberL] at h1 ⊢
            rw [foldl26_append, h1, hlet.2.1]
            omega
          · simp [List.all_append, h2, hlet.1]

theorem natToCharsAux_spec :
    ∀ n, 1 ≤ n → ∀ f, n ≤ f →
      parseDigitsNat (natToCharsAux f n) = n ∧
        (natToCharsAux f n).all isDigitCh = true ∧
        natToCharsAux f n ≠ [] := by
  intro n
  induction n using Nat.strong_induction_on with
  | _ n ih =>
    intro hn f hf
    match n, hn with
    | m + 1, _ =>
      match f, hf with
      | g + 1, hf =>
        have hunf : natToCharsAux (g + 1) (m + 1) =
            natToCharsAux g ((m + 1) / 10) ++ [digitOf ((m + 1) % 10)] := by
          simp [natToCharsAux]
        rw [hunf]
        have hmod : (m + 1) % 10 < 10 := Nat.mod_lt _ (by omega)
        have hdig := digitOf_spec ((m + 1) % 10) hmod
        by_cases hq : (m + 1) / 10 = 0
        · have hz : natToCharsAux g ((m + 1) / 10) = [] := by
            rw [hq]; cases g <;> rfl
          rw [hz]
          refine ⟨?_, ?_, by simp⟩
          · have hmm : (m + 1) % 10 = m + 1 := by omega
            rw [hmm] at hdig ⊢
            simp [parseDigitsNat, hdig.2.1]
          · simp [hdig.1]
        · have hq1 : 1 ≤ (m + 1) / 10 := by omega
          have hqlt : (m + 1) / 10 < m + 1 := by
            have := Nat.div_le_self (m + 1) 10
            have := Nat.div_lt_self (show 0 < m + 1 by omega) (show 1 < 10 by omega)
            omega
          have hqg : (m + 1) / 10 ≤ g := by
            have := Nat.div_lt_self (show 0 < m + 1 by omega) (show 1 < 10 by omega)
            omega
          obtain ⟨h1, h2, h3⟩ := ih ((m + 1) / 10) hqlt hq1 g hqg
          refine ⟨?_, ?_, by simp⟩
          · have hdm := Nat.div_add_mod (m + 1) 10
            simp only [parseDigitsNat] at h1 ⊢
            rw [List.foldl_append, h1]
            simp [hdig.2.1]
            omega
          · simp [List.all_append, h2, hdig.1]

theorem itoaNat_spec (n : Nat) (hn : 1 ≤ n) :
    (itoaNat n).data = natToCharsAux n n ∧
      parseDigitsNat (itoaNat n).data = n ∧
      (itoaNat n).data.all isDigitCh = true ∧ (itoaNat n).data ≠ [] := by
  obtain ⟨h1, h2, h3⟩ := natToCharsAux_spec n hn n (le_refl n)
  have he : itoaNat n = ⟨natToCharsAux n n⟩ := by
    simp [itoaNat, show ¬(n = 0) by omega]
  rw [he]
  exact ⟨rfl, h1, h2, h3⟩

theorem isDigitCh_not_up {c : Char} (h : isDigitCh c = true) : isUpCh c = false := by
  simp [isDigitCh] at h
  simp [isUpCh]
  omega

theorem isDigitCh_not_dollar {c : Char} (h : isDigitCh c = true) : (c == '$') = false := by
  have hne : c ≠ '$' := by
    intro he
    subst he
    simp [isDigitCh] at h
  simp [hne]

theorem isUpCh_ne_dollar {c : Char} (h : isUpCh c = true) : (c != '$') = true := by
  have hne : c ≠ '$' := by
    intro he
    subst he
    simp [isUpCh] at h
  simp [hne]

theorem takeWhile_append_of {p : Char → Bool} (l1 l2 : List Char)
    (h1 : ∀ c ∈ l1, p c = true) (h2 : ∀ c, l2.head? = some c → p c = false) :
    (l1 ++ l2).takeWhile p = l1 := by
  induction l1 with
  | nil =>
    cases l2 with
    | nil => rfl
    | cons c cs => simp [List.takeWhile_cons, h2 c rfl]
  | cons a t ih =>
    simp only [List.cons_append, List.takeWhile_cons, h1 a (by simp)]
    simp [ih (fun c hc => h1 c (by simp [hc]))]

theorem cellNameStr_data (col row : Nat) :
    (cellNameStr col row).data = columnNumberToNameAux col col ++ (itoaNat row).data := rfl

theorem cellName_roundtrip (col row : Nat) (h1 : 1 ≤ col) (h2 : col ≤ TotalColumns)
    (h3 : 1 ≤ row) (h4 : row ≤ TotalRows) :
    cellNameToCoordinates (cellNameStr col row) = .ok (col, row) := by
  obtain ⟨hcolparse, hcolup, hcolne⟩ := columnNumberToNameAux_spec col h1 col (le_refl col)
  obtain ⟨hrowdata, hrowparse, hrowdig, hrowne⟩ := itoaNat_spec row h3
  have hup : ∀ c ∈ columnNumberToNameAux col col, (isUpCh c || c == '$') = true := by
    intro c hc
    have := List.all_eq_true.mp hcolup c hc
    simp [this]
  have hdighead : ∀ c, ((itoaNat row).data.head? = some c) → (isUpCh c || c == '$') = false := by
    intro c hc
    have hmem : c ∈ (itoaNat row).data := by
      cases hd : (itoaNat row).data with
      | nil => rw [hd] at hc; cases hc
      | cons x xs =>
        rw [hd] at hc
        simp at hc
        simp [hd, hc]
    have hd := List.all_eq_true.mp hrowdig c hmem
    simp [isDigitCh_not_up hd, isDigitCh_not_dollar hd]
  have htw : ((cellNameStr col row).data.takeWhile (fun c => isUpCh c || c == '$')) =
      columnNumberToNameAux col col := by
    rw [cellNameStr_data]
    exact takeWhile_append_of _ _ hup hdighead
  have hfilter : (columnNumberToNameAux col col).filter (fun c => c != '$') =
      columnNumberToNameAux col col := by
    rw [List.filter_eq_self]
    intro c hc
    exact isUpCh_ne_dollar (List.all_eq_true.mp hcolup c hc)
  simp only [cellNameToCoordinates, htw, hfilter]
  rw [cellNameStr_data, List.drop_left]
  have hLne : (columnNumberToNameAux col col).isEmpty = false := by
    cases h : columnNumberToNameAux col col with
    | nil => exact absurd h hcolne
    | cons a t => simp [List.isEmpty]
  have hDne : ((itoaNat row).data).isEmpty = false := by
    cases h : (itoaNat row).data with
    | nil => exact absurd h hrowne
    | cons a t => simp [List.isEmpty]
  rw [hLne]
  simp only [Bool.false_eq_true, if_false]
  rw [hDne, hrowdig]
  simp only [Bool.not_true, Bool.false_or, Bool.false_eq_true, if_false]
  rw [hrowparse]
  simp only [columnNameToNumberL] at hcolparse
  rw [show columnNameToNumberL (columnNumberToNameAux col col) = col from hcolparse]
  rw [if_neg (by omega), if_neg (by omega), if_neg (by omega)]

theorem coordinatesToCellName_ok {col row : Nat} {nm : String}
    (h : coordinatesToCellName col row = .ok nm) :
    nm = cellNameStr col row ∧ 1 ≤ col ∧ col ≤ TotalColumns ∧ 1 ≤ row ∧ row ≤ TotalRows := by
  simp only [coordinatesToCellName] at h
  split at h
  · cases h
  · split at h
    · cases h
    · split at h
      · cases h
      · cases h
        rename_i h1 h2 h3
        simp at h1 h2 h3
        exact ⟨rfl, by omega, by omega, by omega, by omega⟩

theorem coordinatesToCellName_parse {col row : Nat} {nm : String}
    (h : coordinatesToCellName col row = .ok nm) :
    cellNameToCoordinates nm = .ok (col, row) := by
  obtain ⟨he, h1, h2, h3, h4⟩ := coordinatesToCellName_ok h
  rw [he]
  exact cellName_roundtrip col row h1 h2 h3 h4

theorem cellNameToCoordinates_ne_empty {s : String} {p : Nat × Nat}
    (h : cellNameToCoordinates s = .ok p) : s ≠ "" := by
  intro he
  subst he
  simp [cellNameToCoordinates] at h

theorem foldl26_ge_one : ∀ (l : List Char) (acc : Nat), 1 ≤ acc →
    1 ≤ l.foldl (fun a c => a * 26 + letterVal c) acc := by
  intro l
  induction l with
  | nil => intro acc h; exact h
  | cons x xs ih =>
    intro acc h
    exact ih _ (by simp [letterVal]; omega)

theorem parse_col_row_pos {s : String} {c r : Nat}
    (h : cellNameToCoordinates s = .ok (c, r)) : 1 ≤ c ∧ 1 ≤ r := by
  simp only [cellNameToCoordinates] at h
  split at h
  case isTrue => cases h
  case isFalse hletters =>
    split at h
    case isTrue => cases h
    case isFalse hfmt =>
      split at h
      case isTrue => cases h
      case isFalse hrowlt =>
        split at h
        case isTrue => cases h
        case isFalse hcolbound =>
          split at h
          case isTrue => cases h
          case isFalse hrowbound =>
            cases h
            refine ⟨?_, by simp at hrowlt; omega⟩
            have hLup : ∀ ch ∈ (List.filter (fun c => c != '$')
                (List.takeWhile (fun c => isUpCh c || c == '$') s.data)), isUpCh ch = true := by
              intro ch hch
              have hm := List.mem_filter.mp hch
              have htw := List.mem_takeWhile_imp hm.1
              rcases (Bool.or_eq_true _ _).mp htw with h | h
              · exact h
              · exact absurd h (by simpa using hm.2)
            revert hletters hLup
            generalize (List.filter (fun c => c != '$')
              (List.takeWhile (fun c => isUpCh c || c == '$') s.data)) = L
            intro hletters hLup
            cases L with
            | nil => simp at hletters
            | cons a t =>
              show 1 ≤ columnNameToNumberL (a :: t)
              simp only [columnNameToNumberL, List.foldl_cons]
              have ha := hLup a (by simp)
              simp only [isUpCh, Bool.and_eq_true, decide_eq_true_eq] at ha
              exact foldl26_ge_one t _ (by simp [letterVal]; omega)

theorem cellNameStr_no_dollar (col row : Nat) (h1 : 1 ≤ col) (h3 : 1 ≤ row) :
    ∀ c ∈ (cellNameStr col row).data, (c == '$') = false := by
  intro c hc
  rw [cellNameStr_data] at hc
  rcases List.mem_append.mp hc with hmem | hmem
  · obtain ⟨_, hcolup, _⟩ := columnNumberToNameAux_spec col h1 col (le_refl col)
    have hup := List.all_eq_true.mp hcolup c hmem
    have := isUpCh_ne_dollar hup
    simpa using this
  · obtain ⟨_, _, hrowdig, _⟩ := itoaNat_spec row h3
    exact isDigitCh_not_dollar (List.all_eq_true.mp hrowdig c hmem)

/-- shiftCell on an in-bounds relative (un-anchored) cell name shifts the
column and row by exactly the supplied deltas. -/
theorem shiftCell_shifts (c r c' r' : Nat)
    (h1 : 1 ≤ c) (h2 : c ≤ TotalColumns) (h3 : 1 ≤ r) (h4 : r ≤ TotalRows)
    (h5 : 1 ≤ c') (h6 : c' ≤ TotalColumns) (h7 : 1 ≤ r') (h8 : r' ≤ TotalRows) :
    shiftCell (cellNameStr c r) ((c' : Int) - (c : Int)) ((r' : Int) - (r : Int)) =
      cellNameStr c' r' := by
  have hparse := cellName_roundtrip c r h1 h2 h3 h4
  have hnodollar := cellNameStr_no_dollar c r h1 h3
  have hfirst : firstDollarIdx (cellNameStr c r).data = -1 := by
    simp only [firstDollarIdx]
    rw [List.findIdx?_eq_none_iff.mpr hnodollar]
  have hlast : lastDollarIdx (cellNameStr c r).data = -1 := by
    simp only [lastDollarIdx]
    rw [List.findIdx?_eq_none_iff.mpr (by
      intro x hx
      exact hnodollar x (List.mem_reverse.mp hx))]
  simp only [shiftCell, hparse, hfirst, hlast]
  norm_num
  have hcn : columnNumberToName (c' : Int) = .ok ⟨columnNumberToNameAux c' c'⟩ := by
    simp only [columnNumberToName]
    rw [if_neg (by omega), if_neg (by simp [TotalColumns] at h6 ⊢; omega)]
    simp [Int.toNat_ofNat]
  rw [hcn]
  have hio : itoaInt (r' : Int) = itoaNat r' := by
    simp only [itoaInt]
    rw [if_neg (by omega)]
    simp [Int.toNat_ofNat]
  rw [hio]
  show (⟨columnNumberToNameAux c' c'⟩ : String) ++ itoaNat r' = cellNameStr c' r'
  have : itoaNat r' = ⟨(itoaNat r').data⟩ := rfl
  rw [this]
  rfl

/-! ## Lemmas: densification -/

theorem checkSheet_get_r (ws : Worksheet) (i : Nat) (h : i < (checkSheet ws).rows.length) :
    ((checkSheet ws).rows.get ⟨i, h⟩).r = i + 1 := by
  simp only [checkSheet, List.get_map, List.get_range] at *
  cases hf : ws.rows.reverse.find? (fun rw => rw.r == i + 1) with
  | none => rfl
  | some rw =>
    have := List.find?_some hf
    simp at this
    simp [this]

theorem checkSheet_length_ge (ws : Worksheet) :
    ws.rows.length ≤ (checkSheet ws).rows.length := by
  simp only [checkSheet, List.length_map, List.length_range]
  cases h : ws.rows.getLast? with
  | none => simp [h]
  | some lastRow =>
    simp only [h]
    split <;> omega

theorem checkSheet_last_le (ws : Worksheet) (lastRw : XlsxRow)
    (h : ws.rows.getLast? = some lastRw) : lastRw.r ≤ (checkSheet ws).rows.length := by
  simp only [checkSheet, List.length_map, List.length_range, h]
  split <;> omega

theorem find_rev_of_indexed : ∀ (l : List XlsxRow) (k : Nat),
    (∀ j (hj : j < l.length), (l.get ⟨j, hj⟩).r = k + j + 1) →
    ∀ i (hi : i < l.length),
      l.reverse.find? (fun rw => rw.r == k + i + 1) = some (l.get ⟨i, hi⟩) := by
  intro l
  induction l with
  | nil => intro k _ i hi; cases hi
  | cons a t ih =>
    intro k hidx i hi
    have ha : a.r = k + 1 := by
      have := hidx 0 (by simp)
      simpa using this
    rw [List.reverse_cons, List.find?_append]
    cases i with
    | zero =>
      have hnone : t.reverse.find? (fun rw => rw.r == k + 0 + 1) = none := by
        rw [List.find?_eq_none]
        intro x hx hcon
        rw [List.mem_reverse] at hx
        obtain ⟨⟨j, hj⟩, hget⟩ := List.mem_iff_get.mp hx
        have h2 := hidx (j + 1) (by simp; omega)
        rw [List.get_cons_succ] at h2
        rw [hget] at h2
        simp at hcon
        omega
      rw [hnone]
      simp [List.find?, ha]
    | succ i' =>
      have hi' : i' < t.length := by simp at hi; omega
      have ht : ∀ j (hj : j < t.length), (t.get ⟨j, hj⟩).r = (k + 1) + j + 1 := by
        intro j hj
        have h2 := hidx (j + 1) (by simp; omega)
        rw [List.get_cons_succ] at h2
        rw [h2]
        omega
      have hfind := ih (k + 1) ht i' hi'
      have hpred : (fun (rw : XlsxRow) => rw.r == k + 1 + i' + 1) =
          (fun rw => rw.r == k + (i' + 1) + 1) := by
        funext rw
        have : k + 1 + i' + 1 = k + (i' + 1) + 1 := by omega
        rw [this]
      rw [hpred] at hfind
      rw [hfind]
      rw [List.get_cons_succ]
      rfl

theorem checkSheet_id (ws : Worksheet)
    (hr : ∀ i (hi : i < ws.rows.length), (ws.rows.get ⟨i, hi⟩).r = i + 1) :
    checkSheet ws = ws := by
  cases hlast : ws.rows.getLast? with
  | none =>
    have hnil : ws.rows = [] := by
      cases hl : ws.rows with
      | nil => rfl
      | cons a t =>
        rw [hl] at hlast
        simp [List.getLast?_eq_getElem?] at hlast
    obtain ⟨rows, mc⟩ := ws
    simp only at hnil
    subst hnil
    rfl
  | some lastRw =>
    have hlen : 0 < ws.rows.length := by
      cases hl : ws.rows with
      | nil => rw [hl] at hlast; cases hlast
      | cons a t => simp
    have hlastr : lastRw.r = ws.rows.length := by
      have hg := List.getLast?_eq_getElem? ws.rows
      rw [hlast] at hg
      have hidx : ws.rows.length - 1 < ws.rows.length := by omega
      rw [List.getElem?_eq_getElem hidx] at hg
      have hl2 := hr (ws.rows.length - 1) hidx
      have : lastRw = ws.rows.get ⟨ws.rows.length - 1, hidx⟩ := by
        cases hg
        rfl
      rw [this, hl2]
      omega
    simp only [checkSheet, hlast, hlastr]
    rw [if_pos (le_refl _)]
    have hrows : (List.range ws.rows.length).map (fun i =>
        match ws.rows.reverse.find? (fun rw => rw.r == i + 1) with
        | some rw => rw
        | none => ⟨i + 1, []⟩) = ws.rows := by
      apply List.ext_get (by simp)
      intro n h₁ h₂
      simp only [List.get_map, List.get_range]
      have hzero : ∀ j (hj : j < ws.rows.length), (ws.rows.get ⟨j, hj⟩).r = 0 + j + 1 := by
        intro j hj
        rw [hr j hj]
        omega
      have hf := find_rev_of_indexed ws.rows 0 hzero n h₂
      have hpred : (fun (rw : XlsxRow) => rw.r == 0 + n + 1) =
          (fun rw => rw.r == n + 1) := by
        funext rw
        have : 0 + n + 1 = n + 1 := by omega
        rw [this]
      rw [hpred] at hf
      rw [hf]
    rw [hrows]

theorem goM_ok_bind {α β : Type} (a : α) (f : α → GoM β) :
    (Except.ok a : GoM α) >>= f = f a := rfl

theorem goM_error_bind {α β : Type} (e : GoErr) (f : α → GoM β) :
    (Except.error e : GoM α) >>= f = .error e := rfl

theorem goM_ok_map {α β : Type} (a : α) (f : α → β) :
    (Except.ok a : GoM α).map f = .ok (f a) := rfl

theorem goM_error_map {α β : Type} (e : GoErr) (f : α → β) :
    (Except.error e : GoM α).map f = .error e := rfl

theorem fillCells_length : ∀ (cs : List XlsxC) (rn k : Nat) (out : List XlsxC),
    fillCells rn k cs = .ok out → out.length = cs.length := by
  intro cs
  induction cs with
  | nil => intro rn k out h; cases h; rfl
  | cons c t ih =>
    intro rn k out h
    simp only [fillCells] at h
    by_cases hc : (c.r != "") = true
    · rw [if_pos hc] at h
      cases hp : cellNameToCoordinates c.r with
      | error e => simp only [hp, goM_error_bind] at h; cases h
      | ok p =>
        simp only [hp, goM_ok_bind] at h
        cases ht : fillCells rn (if p.1 > k + 1 then p.1 else k + 1) t with
        | error e => simp only [ht, goM_error_bind] at h; cases h
        | ok rest =>
          simp only [ht, goM_ok_bind] at h
          cases h
          simp [ih _ _ _ ht]
    · rw [if_neg hc] at h
      cases ht : fillCells rn (k + 1) t with
      | error e => simp only [ht, goM_error_map] at h; cases h
      | ok rest =>
        simp only [ht, goM_ok_map] at h
        cases h
        simp [ih _ _ _ ht]

theorem fillCells_stable : ∀ (cs : List XlsxC) (rn k : Nat) (out : List XlsxC),
    fillCells rn k cs = .ok out → fillCells rn k out = .ok out := by
  intro cs
  induction cs with
  | nil => intro rn k out h; cases h; rfl
  | cons c t ih =>
    intro rn k out h
    simp only [fillCells] at h
    by_cases hc : (c.r != "") = true
    · rw [if_pos hc] at h
      cases hp : cellNameToCoordinates c.r with
      | error e => simp only [hp, goM_error_bind] at h; cases h
      | ok p =>
        simp only [hp, goM_ok_bind] at h
        cases ht : fillCells rn (if p.1 > k + 1 then p.1 else k + 1) t with
        | error e => simp only [ht, goM_error_bind] at h; cases h
        | ok rest =>
          simp only [ht, goM_ok_bind] at h
          cases h
          simp only [fillCells]
          rw [if_pos hc]
          simp only [hp, goM_ok_bind, ih _ _ _ ht, goM_ok_bind]
    · rw [if_neg hc] at h
      cases ht : fillCells rn (k + 1) t with
      | error e => simp only [ht, goM_error_map] at h; cases h
      | ok rest =>
        simp only [ht, goM_ok_map] at h
        cases h
        cases hname : coordinatesToCellName (k + 1) rn with
        | ok nm =>
          have hparse := coordinatesToCellName_parse hname
          have hne := cellNameToCoordinates_ne_empty hparse
          simp only [fillCells, hname]
          rw [if_pos (by simpa using bne_iff_ne.mpr hne)]
          simp only [hparse, goM_ok_bind]
          rw [if_neg (lt_irrefl _)]
          simp only [ih _ _ _ ht, goM_ok_bind]
        | error e =>
          simp only [fillCells, hname]
          rw [if_neg (by simp)]
          simp only [ih _ _ _ ht, goM_ok_map]

theorem fillCells_of_indexed : ∀ (l : List XlsxC) (rn k : Nat),
    (∀ j (hj : j < l.length),
      ∃ rr, cellNameToCoordinates ((l.get ⟨j, hj⟩).r) = .ok (k + j + 1, rr)) →
    fillCells rn k l = .ok l := by
  intro l
  induction l with
  | nil => intro rn k _; rfl
  | cons c t ih =>
    intro rn k hidx
    obtain ⟨rr, hp⟩ := hidx 0 (by simp)
    have hne := cellNameToCoordinates_ne_empty hp
    simp only [fillCells]
    rw [if_pos (by simpa using bne_iff_ne.mpr hne)]
    simp only [List.get] at hp
    simp only [hp, goM_ok_bind]
    rw [if_neg (by simp)]
    have htail : fillCells rn (k + 1) t = .ok t := by
      apply ih
      intro j hj
      obtain ⟨rr2, hp2⟩ := hidx (j + 1) (by simp; omega)
      rw [List.get_cons_succ] at hp2
      refine ⟨rr2, ?_⟩
      have : k + 1 + j + 1 = k + (j + 1) + 1 := by omega
      rw [this]
      exact hp2
    simp only [htail, goM_ok_bind]

theorem mkBlankCellsFrom_spec : ∀ (rem i rn : Nat) (bl : List XlsxC),
    mkBlankCellsFrom rn i rem = .ok bl →
    bl.length = rem ∧ ∀ j (hj : j < bl.length),
      cellNameToCoordinates ((bl.get ⟨j, hj⟩).r) = .ok (i + j + 1, rn) := by
  intro rem
  induction rem with
  | zero =>
    intro i rn bl h
    cases h
    exact ⟨rfl, fun j hj => absurd hj (by simp)⟩
  | succ rem ih =>
    intro i rn bl h
    simp only [mkBlankCellsFrom] at h
    cases hn : coordinatesToCellName (i + 1) rn with
    | error e => simp only [hn, goM_error_bind] at h; cases h
    | ok nm =>
      simp only [hn, goM_ok_bind] at h
      cases hrest : mkBlankCellsFrom rn (i + 1) rem with
      | error e => simp only [hrest, goM_error_bind] at h; cases h
      | ok rest =>
        simp only [hrest, goM_ok_bind] at h
        cases h
        obtain ⟨hlen, hget⟩ := ih (i + 1) rn rest hrest
        refine ⟨by simp [hlen], ?_⟩
        intro j hj
        cases j with
        | zero =>
          show cellNameToCoordinates (blankCell nm).r = .ok (i + 1, rn)
          exact coordinatesToCellName_parse hn
        | succ j' =>
          have hj' : j' < rest.length := by simp at hj; omega
          rw [List.get_cons_succ]
          have := hget j' hj'
          have heq : i + 1 + j' + 1 = i + (j' + 1) + 1 := by omega
          rw [heq] at this
          exact this

theorem setCellAt_ok {l : List XlsxC} {idx : Nat} {c : XlsxC} {res : List XlsxC}
    (h : setCellAt l idx c = .ok res) : idx < l.length ∧ res = l.set idx c := by
  simp only [setCellAt] at h
  split at h
  · cases h
    exact ⟨by assumption, rfl⟩
  · cases h

theorem copyCellsInto_spec : ∀ (olds acc : List XlsxC) (res : List XlsxC),
    (∀ j (hj : j < acc.length),
      ∃ rr, cellNameToCoordinates ((acc.get ⟨j, hj⟩).r) = .ok (j + 1, rr)) →
    copyCellsInto olds acc = .ok res →
    res.length = acc.length ∧ (∀ j (hj : j < res.length),
      ∃ rr, cellNameToCoordinates ((res.get ⟨j, hj⟩).r) = .ok (j + 1, rr)) := by
  intro olds
  induction olds with
  | nil =>
    intro acc res hinv h
    cases h
    exact ⟨rfl, hinv⟩
  | cons c olds ih =>
    intro acc res hinv h
    simp only [copyCellsInto, List.foldlM] at h
    cases hp : cellNameToCoordinates c.r with
    | error e => simp only [hp, goM_error_bind] at h; cases h
    | ok p =>
      simp only [hp, goM_ok_bind] at h
      cases hs : setCellAt acc (p.1 - 1) c with
      | error e => simp only [hs, goM_error_bind] at h; cases h
      | ok newAcc =>
        simp only [hs, goM_ok_bind] at h
        obtain ⟨hidx, hset⟩ := setCellAt_ok hs
        have hppos : 1 ≤ p.1 ∧ 1 ≤ p.2 := parse_col_row_pos (by rw [hp])
        have hinv' : ∀ j (hj : j < newAcc.length),
            ∃ rr, cellNameToCoordinates ((newAcc.get ⟨j, hj⟩).r) = .ok (j + 1, rr) := by
          intro j hj
          subst hset
          have hj2 : j < acc.length := by simpa using hj
          by_cases hcj : p.1 - 1 = j
          · subst hcj
            have hcell : (acc.set (p.1 - 1) c).get ⟨p.1 - 1, hj⟩ = c := by
              rw [List.get_eq_getElem, List.getElem_set]
              simp
            rw [hcell]
            refine ⟨p.2, ?_⟩
            have hj1 : (p.1 - 1) + 1 = p.1 := by omega
            rw [hj1, hp]
          · have hcell : (acc.set (p.1 - 1) c).get ⟨j, hj⟩ = acc.get ⟨j, hj2⟩ := by
              rw [List.get_eq_getElem, List.get_eq_getElem, List.getElem_set]
              simp [hcj]
            rw [hcell]
            exact hinv j hj2
        have hlen2 : newAcc.length = acc.length := by
          subst hset
          simp
        obtain ⟨h1, h2⟩ := ih newAcc res hinv' (by simpa [copyCellsInto] using h)
        exact ⟨by rw [h1, hlen2], h2⟩

theorem getLast?_of_get {l : List XlsxC} {n : Nat} (hlen : l.length = n) (hn : 1 ≤ n)
    (hidx : n - 1 < l.length) : l.getLast? = some (l.get ⟨n - 1, hidx⟩) := by
  subst hlen
  rw [List.getLast?_eq_getElem?, List.getElem?_eq_getElem (by omega)]
  rfl

theorem checkRowOne_mk (i r0 : Nat) (cs : List XlsxC) :
    checkRowOne i (⟨r0, cs⟩ : XlsxRow) =
      (if cs.length = 0 then .ok ⟨r0, cs⟩
      else do
        let cells ← fillCells (i + 1) 0 cs
        match cells.getLast? with
        | none => .error (.goPanic "runtime error: index out of range")
        | some lastCell => do
          let p ← cellNameToCoordinates lastCell.r
          if cells.length < p.1 then do
            let blanks ← mkBlankCells (i + 1) p.1
            let newC ← copyCellsInto cells blanks
            .ok ⟨r0, newC⟩
          else .ok ⟨r0, cells⟩) := rfl

theorem checkRowOne_spec (i : Nat) (row row' : XlsxRow) (h : checkRowOne i row = .ok row') :
    row'.r = row.r ∧
    checkRowOne i row' = .ok row' ∧
    (∀ lastC, row'.c.getLast? = some lastC →
      ∃ lc rr, cellNameToCoordinates lastC.r = .ok (lc, rr) ∧ lc ≤ row'.c.length) := by
  obtain ⟨r0, cs⟩ := row
  rw [checkRowOne_mk] at h
  by_cases hz : cs.length = 0
  · rw [if_pos hz] at h
    cases h
    have hnil : cs = [] := List.length_eq_zero.mp hz
    refine ⟨rfl, by rw [checkRowOne_mk, if_pos hz], ?_⟩
    intro lastC hl
    simp only at hl
    rw [hnil] at hl
    cases hl
  · rw [if_neg hz] at h
    cases hfc : fillCells (i + 1) 0 cs with
    | error e => simp only [hfc, goM_error_bind] at h; cases h
    | ok cells =>
      simp only [hfc, goM_ok_bind] at h
      have hclen : cells.length = cs.length := fillCells_length _ _ _ _ hfc
      cases hlastq : cells.getLast? with
      | none => simp only [hlastq] at h; cases h
      | some lastCell =>
        simp only [hlastq] at h
        cases hp : cellNameToCoordinates lastCell.r with
        | error e => simp only [hp, goM_error_bind] at h; cases h
        | ok p =>
          simp only [hp, goM_ok_bind] at h
          have hppos := parse_col_row_pos (c := p.1) (r := p.2) (by rw [hp])
          by_cases hlt : cells.length < p.1
          · rw [if_pos hlt] at h
            cases hbl : mkBlankCells (i + 1) p.1 with
            | error e => simp only [hbl, goM_error_bind] at h; cases h
            | ok blanks =>
              simp only [hbl, goM_ok_bind] at h
              cases hcp : copyCellsInto cells blanks with
              | error e => simp only [hcp, goM_error_bind] at h; cases h
              | ok newC =>
                simp only [hcp, goM_ok_bind] at h
                cases h
                obtain ⟨hbllen, hblget⟩ := mkBlankCellsFrom_spec p.1 0 (i + 1) blanks hbl
                have hblinv : ∀ j (hj : j < blanks.length),
                    ∃ rr, cellNameToCoordinates ((blanks.get ⟨j, hj⟩).r) = .ok (j + 1, rr) := by
                  intro j hj
                  refine ⟨i + 1, ?_⟩
                  have hb := hblget j hj
                  rwa [show 0 + j + 1 = j + 1 from by omega] at hb
                obtain ⟨hnlen, hninv⟩ := copyCellsInto_spec cells blanks newC hblinv hcp
                have hnlen2 : newC.length = p.1 := by rw [hnlen, hbllen]
                have hp1pos : 1 ≤ p.1 := hppos.1
                have hidx : p.1 - 1 < newC.length := by omega
                have hlastn := getLast?_of_get hnlen2 hp1pos hidx
                obtain ⟨rr, hpr⟩ := hninv (p.1 - 1) hidx
                have hfix : p.1 - 1 + 1 = p.1 := by omega
                rw [hfix] at hpr
                refine ⟨rfl, ?_, ?_⟩
                · rw [checkRowOne_mk, if_neg (by omega)]
                  have hfc2 : fillCells (i + 1) 0 newC = .ok newC := by
                    apply fillCells_of_indexed
                    intro j hj
                    obtain ⟨rr2, h2⟩ := hninv j hj
                    refine ⟨rr2, ?_⟩
                    rwa [show 0 + j + 1 = j + 1 from by omega]
                  simp only [hfc2, goM_ok_bind, hlastn, hpr, goM_ok_bind]
                  rw [if_neg (by omega)]
                · intro lastC hl
                  simp only at hl
                  rw [hlastn] at hl
                  cases hl
                  exact ⟨p.1, rr, hpr, by simp only; omega⟩
          · rw [if_neg hlt] at h
            cases h
            refine ⟨rfl, ?_, ?_⟩
            · rw [checkRowOne_mk, if_neg (by omega)]
              have hfc2 : fillCells (i + 1) 0 cells = .ok cells := fillCells_stable _ _ _ _ hfc
              simp only [hfc2, goM_ok_bind, hlastq, hp, goM_ok_bind]
              rw [if_neg hlt]
            · intro lastC hl
              simp only at hl
              rw [hlastq] at hl
              cases hl
              exact ⟨p.1, p.2, by rw [hp], by simp only; omega⟩

theorem checkRows_spec : ∀ (rs : List XlsxRow) (k : Nat) (rs' : List XlsxRow),
    checkRows k rs = .ok rs' →
    rs'.length = rs.length ∧
    (∀ j (hj : j < rs'.length) (hj2 : j < rs.length), (rs'.get ⟨j, hj⟩).r = (rs.get ⟨j, hj2⟩).r) ∧
    checkRows k rs' = .ok rs' ∧
    (∀ j (hj : j < rs'.length) lastC, ((rs'.get ⟨j, hj⟩).c.getLast? = some lastC) →
      ∃ lc rr, cellNameToCoordinates lastC.r = .ok (lc, rr) ∧
        lc ≤ (rs'.get ⟨j, hj⟩).c.length) := by
  intro rs
  induction rs with
  | nil =>
    intro k rs' h
    cases h
    exact ⟨rfl, fun j hj _ => absurd hj (by simp),
      rfl, fun j hj _ _ => absurd hj (by simp)⟩
  | cons a t ih =>
    intro k rs' h
    simp only [checkRows] at h
    cases h1 : checkRowOne k a with
    | error e => simp only [h1, goM_error_bind] at h; cases h
    | ok a' =>
      simp only [h1, goM_ok_bind] at h
      cases h2 : checkRows (k + 1) t with
      | error e => simp only [h2, goM_error_bind] at h; cases h
      | ok t' =>
        simp only [h2, goM_ok_bind] at h
        cases h
        obtain ⟨hr1, hstab1, hlast1⟩ := checkRowOne_spec k a a' h1
        obtain ⟨hlen, hget, hstab, hlast⟩ := ih (k + 1) t' h2
        refine ⟨by simp [hlen], ?_, ?_, ?_⟩
        · intro j hj hj2
          cases j with
          | zero => exact hr1
          | succ j' =>
            rw [List.get_cons_succ, List.get_cons_succ]
            exact hget j' (by simp at hj; omega) (by simp at hj2; omega)
        · simp only [checkRows, hstab1, goM_ok_bind, hstab, goM_ok_bind]
        · intro j hj lastC hl
          cases j with
          | zero => exact hlast1 lastC hl
          | succ j' =>
            rw [List.get_cons_succ] at hl ⊢
            exact hlast j' (by simp at hj; omega) lastC hl

/-- Everything claim C3 needs about one densification pass: the row list is
at least as long as before and covers the last referenced row, rows are
numbered 1..N in order, each non-empty row covers every column up to its
last referenced column, and a second pass returns the grid unchanged. -/
theorem densify_spec (ws ws' : Worksheet) (h : densify ws = .ok ws') :
    ws.rows.length ≤ ws'.rows.length ∧
    (∀ lastRw, ws.rows.getLast? = some lastRw → lastRw.r ≤ ws'.rows.length) ∧
    (∀ i (hi : i < ws'.rows.length), (ws'.rows.get ⟨i, hi⟩).r = i + 1) ∧
    (∀ i (hi : i < ws'.rows.length) lastC,
      ((ws'.rows.get ⟨i, hi⟩).c.getLast? = some lastC) →
      ∃ lc rr, cellNameToCoordinates lastC.r = .ok (lc, rr) ∧
        lc ≤ (ws'.rows.get ⟨i, hi⟩).c.length) ∧
    densify ws' = .ok ws' := by
  simp only [densify, checkRow] at h
  cases hcr : checkRows 0 (checkSheet ws).rows with
  | error e => simp only [hcr, goM_error_bind] at h; cases h
  | ok rows' =>
    simp only [hcr, goM_ok_bind] at h
    cases h
    obtain ⟨hlen, hget, hstab, hlast⟩ := checkRows_spec _ 0 _ hcr
    have hr : ∀ i (hi : i < rows'.length), (rows'.get ⟨i, hi⟩).r = i + 1 := by
      intro i hi
      rw [hget i hi (by omega)]
      exact checkSheet_get_r ws i (by omega)
    refine ⟨?_, ?_, hr, hlast, ?_⟩
    · calc ws.rows.length ≤ (checkSheet ws).rows.length := checkSheet_length_ge ws
        _ = rows'.length := hlen.symm
    · intro lastRw hlr
      calc lastRw.r ≤ (checkSheet ws).rows.length := checkSheet_last_le ws lastRw hlr
        _ = rows'.length := hlen.symm
    · have hid : checkSheet { rows := rows', mergeCells := (checkSheet ws).mergeCells } =
          { rows := rows', mergeCells := (checkSheet ws).mergeCells } :=
        checkSheet_id _ hr
      show checkRow (checkSheet { rows := rows', mergeCells := (checkSheet ws).mergeCells }) = _
      rw [hid]
      show (do
        let rows ← checkRows 0 rows'
        pure { rows := rows, mergeCells := (checkSheet ws).mergeCells } :
          GoM Worksheet) = _
      simp only [hstab, goM_ok_bind]
      rfl

/-! ## Lemmas: reading cells that were never written -/

theorem scanRowCells_none (ws : Worksheet) (fn : Worksheet → XlsxC → GoM (String × Bool))
    (ax : String) : ∀ (cs : List XlsxC), (∀ c ∈ cs, c.r ≠ ax) →
    scanRowCells ws fn ax cs = .ok none := by
  intro cs
  induction cs with
  | nil => intro _; rfl
  | cons c t ih =>
    intro hall
    have hne : c.r ≠ ax := hall c (by simp)
    simp only [scanRowCells]
    rw [if_pos (by simp [bne_iff_ne]; exact fun he => hne he.symm)]
    exact ih (fun c2 hc => hall c2 (by simp [hc]))

theorem scanRows_blank (ws : Worksheet) (fn : Worksheet → XlsxC → GoM (String × Bool))
    (row : Nat) (ax : String) : ∀ (rws : List XlsxRow),
    (∀ rw ∈ rws, rw.r = row → ∀ c ∈ rw.c, c.r ≠ ax) →
    scanRows ws fn row ax rws = .ok "" := by
  intro rws
  induction rws with
  | nil => intro _; rfl
  | cons rw rest ih =>
    intro hall
    simp only [scanRows]
    by_cases hr : rw.r = row
    · rw [if_neg (by simp [hr])]
      have hcells := hall rw (by simp) hr
      simp only [scanRowCells_none ws fn ax rw.c hcells, goM_ok_bind]
      exact ih (fun rw2 h2 => hall rw2 (by simp [h2]))
    · rw [if_pos (by simp [hr])]
      exact ih (fun rw2 h2 => hall rw2 (by simp [h2]))

theorem getCellStringFunc_unset (f : FileM) (sheet axis : String) (ws : Worksheet)
    (ax : String) (col row : Nat) (fn : Worksheet → XlsxC → GoM (String × Bool))
    (hws : workSheetReaderM f sheet = .ok ws)
    (hmp : mergeCellsParser ws axis = .ok ax)
    (hcn : cellNameToCoordinates ax = .ok (col, row))
    (hmiss : row > lastRowNum ws ∨ ∀ rw ∈ ws.rows, rw.r = row → ∀ c ∈ rw.c, c.r ≠ ax) :
    getCellStringFunc f sheet axis fn = .ok "" := by
  simp only [getCellStringFunc, hws, goM_ok_bind, hmp, goM_ok_bind, hcn, goM_ok_bind]
  by_cases hrow : row > lastRowNum ws
  · rw [if_pos hrow]
    rfl
  · rw [if_neg hrow]
    cases hmiss with
    | inl h => exact absurd h hrow
    | inr h => exact scanRows_blank ws fn row ax ws.rows h

/-! ## Lemmas: arithmetic steps of the evaluator -/

theorem qLt_zero_not_eqv {y : Qv} (h : qLt y qZero = true) : qEqv y qZero = false := by
  simp [qLt, qZero] at h
  simp [qEqv, qZero]
  intro hz
  rw [hz] at h
  simp at h

/-! ## Lemmas: the ARABIC validation rule -/

def badPairB (a b : Int) : Bool :=
  (a == b && (a == 5 || a == 50 || a == 500)) || b == 2 * a

def hasBadB : List Int → Bool
  | a :: b :: t => badPairB a b || hasBadB (b :: t)
  | _ => false

def romanDigitsL (cs : List Char) : List Int :=
  (cs.filter (fun c => c ≠ '-')).map romanDigit

theorem hasBadB_cons (x : Int) (l : List Int) (h : hasBadB l = true) :
    hasBadB (x :: l) = true := by
  cases l with
  | nil => simp [hasBadB] at h
  | cons b t =>
    show (badPairB x b || hasBadB (b :: t)) = true
    simp [h]

theorem arabicLoop_bad : ∀ (cs : List Char) (val last pre : Int),
    hasBadB (last :: romanDigitsL cs) = true → arabicLoop cs val last pre = none := by
  intro cs
  induction cs with
  | nil => intro val last pre h; simp [romanDigitsL, hasBadB] at h
  | cons ch t ih =>
    intro val last pre h
    by_cases hd : ch = '-'
    · subst hd
      have hfilter : romanDigitsL ('-' :: t) = romanDigitsL t := by
        simp [romanDigitsL]
      rw [hfilter] at h
      simp only [arabicLoop, if_pos rfl]
      exact ih val last (-1) h
    · have hfilter : romanDigitsL (ch :: t) = romanDigit ch :: romanDigitsL t := by
        simp [romanDigitsL, hd]
      rw [hfilter] at h
      simp only [arabicLoop, if_neg hd]
      split
      · rfl
      · split
        · rfl
        · rename_i h1 h2
          apply ih
          have hA : (decide (last = romanDigit ch) &&
              (last == 5 || last == 50 || last == 500)) = false := by
            revert h1
            cases (decide (last = romanDigit ch) && (last == 5 || last == 50 || last == 500)) <;>
              simp
          have hB : (romanDigit ch == 2 * last) = false := by
            simp [beq_iff_eq]
            omega
          have hbeq : (last == romanDigit ch) = decide (last = romanDigit ch) := by
            by_cases he : last = romanDigit ch <;> simp [he]
          have hbp : badPairB last (romanDigit ch) = false := by
            simp only [badPairB]
            rw [hB, hbeq, hA]
            rfl
          have hbadlist : (badPairB last (romanDigit ch) ||
              hasBadB (romanDigit ch :: romanDigitsL t)) = true := h
          rw [hbp] at hbadlist
          simpa using hbadlist

/-! ## Concrete instances used by the claim theorems -/

def emptyFile : FileM := ⟨[], [], [], 0, 0⟩

def infixTok (v : String) : Token := ⟨v, "OperatorInfix", ""⟩

def wsC15 : Worksheet := ⟨[⟨15, [⟨"C15", 0, "", "x", none⟩]⟩], []⟩

def wsC15Dense : Worksheet :=
  ⟨(List.range 14).map (fun i => ⟨i + 1, []⟩) ++
    [⟨15, [blankCell "A15", blankCell "B15", ⟨"C15", 0, "", "x", none⟩]⟩], []⟩

def fShared : XlsxF := ⟨"=A1+B1", "shared", "C1:C5", some 0⟩

def fSharedSlave : XlsxF := ⟨"", "shared", "", some 0⟩

def wsShared : Worksheet :=
  ⟨[⟨1, [⟨"C1", 0, "", "", some fShared⟩]⟩,
    ⟨2, [⟨"C2", 0, "", "", some fSharedSlave⟩]⟩,
    ⟨3, [⟨"C3", 0, "", "", some fSharedSlave⟩]⟩,
    ⟨4, [⟨"C4", 0, "", "", some fSharedSlave⟩]⟩,
    ⟨5, [⟨"C5", 0, "", "", some fSharedSlave⟩]⟩], []⟩

def fileShared : FileM := ⟨[("Sheet1", wsShared)], [], [], 0, 0⟩

def fSharedAbs : XlsxF := ⟨"=A1+$B$1", "shared", "C1:C5", some 0⟩

def wsSharedAbs : Worksheet :=
  ⟨[⟨1, [⟨"C1", 0, "", "", some fSharedAbs⟩]⟩,
    ⟨3, [⟨"C3", 0, "", "", some fSharedSlave⟩]⟩,
    ⟨5, [⟨"C5", 0, "", "", some fSharedSlave⟩]⟩], []⟩

def fileSharedAbs : FileM := ⟨[("Sheet1", wsSharedAbs)], [], [], 0, 0⟩

def wsS1 : Worksheet := ⟨[⟨1, [⟨"A1", 0, "", "1", none⟩]⟩], []⟩

def wsS2 : Worksheet := ⟨[⟨1, [⟨"A1", 0, "", "2", none⟩]⟩], []⟩

def fileTwoSheets : FileM := ⟨[("Sheet1", wsS1), ("Sheet2", wsS2)], [], [], 0, 0⟩

def fileFoo : FileM := ⟨[], ["foo"], [("foo", 0)], 1, 1⟩

def fileFooBar : FileM := ⟨[], ["foo", "bar"], [("foo", 0), ("bar", 1)], 2, 2⟩

/-! ## The claims -/

/-- C1: the claim says resolving a range whose endpoints name different
sheets always returns an error.  The code contradicts it: splitting
"Sheet1!A1:Sheet2!A1" never forms a cellRange at all (both qualified parts
become single references, deduplicated by unqualified cell name, silently
resolved), and even a genuinely mismatched cellRange only assigns the
cross-sheet #VALUE! error to the named err variable, which the very next
successful cell read overwrites, so the resolver returns values with no
error.  This theorem evaluates the code at both failing inputs. -/
theorem claim_C1 :
    parseReference fileTwoSheets "Sheet1" "Sheet1!A1:Sheet2!A1" = .ok ["2"] ∧
    rangeResolver fileTwoSheets [] [⟨⟨1, 1, "Sheet1"⟩, ⟨1, 1, "Sheet2"⟩⟩] = .ok ["1"] := by
  decide

/-- C2 counterexample: the claim (and the spec example) says
ARABIC("IIII") returns #VALUE!; the code returns "4", because the
validation only rejects a repeated value-5/50/500 digit or a digit double
its predecessor, and "IIII" contains neither pattern. -/
theorem claim_C2_counterexample :
    ARABIC [mkNumTok "IIII"] = .ok "4" ∧ ¬ARABIC [mkNumTok "IIII"] = .ok "#VALUE!" := by
  decide

/-- C2 (amended): ARABIC returns #VALUE! whenever the digit stream of the
input contains a repeated value-5/50/500 digit immediately following
itself or a digit exactly double the preceding one; ARABIC("IV") returns
4, and ARABIC("IIII") returns 4 (not #VALUE!: a repeated value-1 digit is
not rejected by this rule). -/
theorem claim_C2 :
    (∀ t : Token, hasBadB (romanDigitsL t.tvalue.data) = true →
      ARABIC [t] = .ok "#VALUE!") ∧
    ARABIC [mkNumTok "IV"] = .ok "4" ∧
    ARABIC [mkNumTok "IIII"] = .ok "4" := by
  refine ⟨?_, by decide, by decide⟩
  intro t hbad
  simp only [ARABIC]
  rw [if_neg (by simp)]
  have hloop := arabicLoop_bad t.tvalue.data 0 0 1 (hasBadB_cons 0 _ hbad)
  simp only [List.headD]
  rw [hloop]
  rfl

/-- C2 witness: the amended rule applied at the concrete input "VV". -/
theorem claim_C2_witness :
    hasBadB (romanDigitsL "VV".data) = true ∧ ARABIC [mkNumTok "VV"] = .ok "#VALUE!" :=
  ⟨by decide, claim_C2.1 (mkNumTok "VV") (by decide)⟩

/-- C3: densification covers every row index 1 to the last referenced row
(rows in order, numbered i+1), gives every non-empty row a gap-free cell
list covering its last referenced column, and is idempotent: densifying
the result again returns it unchanged. -/
theorem claim_C3 (ws ws' : Worksheet) (h : densify ws = .ok ws') :
    ws.rows.length ≤ ws'.rows.length ∧
    (∀ lastRw, ws.rows.getLast? = some lastRw → lastRw.r ≤ ws'.rows.length) ∧
    (∀ i (hi : i < ws'.rows.length), (ws'.rows.get ⟨i, hi⟩).r = i + 1) ∧
    (∀ i (hi : i < ws'.rows.length) lastC,
      ((ws'.rows.get ⟨i, hi⟩).c.getLast? = some lastC) →
      ∃ lc rr, cellNameToCoordinates lastC.r = .ok (lc, rr) ∧
        lc ≤ (ws'.rows.get ⟨i, hi⟩).c.length) ∧
    densify ws' = .ok ws' :=
  densify_spec ws ws' h

/-- C3 witness: densifying a sheet whose only cell is C15 yields rows 1..15
with row 15 holding synthesized A15 and B15 blanks before the stored cell,
and densifying again returns the same grid. -/
theorem claim_C3_witness :
    densify wsC15 = .ok wsC15Dense ∧
    wsC15Dense.rows.length = 15 ∧
    (∀ i (hi : i < wsC15Dense.rows.length), (wsC15Dense.rows.get ⟨i, hi⟩).r = i + 1) ∧
    densify wsC15Dense = .ok wsC15Dense := by
  have h := claim_C3 wsC15 wsC15Dense (by decide)
  exact ⟨by decide, by decide, h.2.2.1, h.2.2.2.2⟩

/-- C4: reading a non-master cell of a shared-formula group returns the
master formula with relative references shifted by the column/row delta
(C3 against master C1 turns "=A1+B1" into "=A3+B3"), dollar-anchored parts
stay unshifted ("=A1+$B$1" becomes "=A3+$B$1"), and shiftCell moves any
in-bounds relative reference by exactly the supplied deltas. -/
theorem claim_C4 :
    GetCellFormula fileShared "Sheet1" "C3" = .ok "=A3+B3" ∧
    GetCellFormula fileSharedAbs "Sheet1" "C3" = .ok "=A3+$B$1" ∧
    (∀ c r c' r' : Nat, 1 ≤ c → c ≤ TotalColumns → 1 ≤ r → r ≤ TotalRows →
      1 ≤ c' → c' ≤ TotalColumns → 1 ≤ r' → r' ≤ TotalRows →
      shiftCell (cellNameStr c r) ((c' : Int) - (c : Int)) ((r' : Int) - (r : Int)) =
        cellNameStr c' r') :=
  ⟨by decide, by decide, shiftCell_shifts⟩

/-- C4 witness: the shift law applied at A1 with delta (2, 2). -/
theorem claim_C4_witness : shiftCell "A1" 2 2 = "C3" := by
  have h := claim_C4.2.2 1 1 3 3 (by decide) (by decide) (by decide) (by decide)
    (by decide) (by decide) (by decide) (by decide)
  have e1 : cellNameStr 1 1 = "A1" := by decide
  have e2 : cellNameStr 3 3 = "C3" := by decide
  have e3 : ((3 : Nat) : Int) - ((1 : Nat) : Int) = 2 := by decide
  rw [e1, e2, e3] at h
  exact h

/-- C5: the operator priority table is unary minus 3, mul/div 2, add/sub 1,
open-subexpression marker 0, and evaluating the token stream of "=1+2*3"
yields "7" (with the parenthesized variant of the same stream yielding "9",
showing the priority-0 marker forces reduction before the close). -/
theorem claim_C5 :
    getPriority ⟨"-", "OperatorPrefix", ""⟩ = 3 ∧
    getPriority ⟨"*", "OperatorInfix", ""⟩ = 2 ∧
    getPriority ⟨"/", "OperatorInfix", ""⟩ = 2 ∧
    getPriority ⟨"+", "OperatorInfix", ""⟩ = 1 ∧
    getPriority ⟨"-", "OperatorInfix", ""⟩ = 1 ∧
    getPriority ⟨"(", "Subexpression", "Start"⟩ = 0 ∧
    evalInfixExp emptyFile "Sheet1"
      [mkNumTok "1", infixTok "+", mkNumTok "2", infixTok "*", mkNumTok "3"] =
      .ok (mkNumTok "7") ∧
    evalInfixExp emptyFile "Sheet1"
      [⟨"(", "Subexpression", "Start"⟩, mkNumTok "1", infixTok "+", mkNumTok "2",
       ⟨")", "Subexpression", "Stop"⟩, infixTok "*", mkNumTok "3"] =
      .ok (mkNumTok "9") := by
  decide

/-- C6: every calculate step applying infix / whose right operand parses to
the numeric value zero (and whose left operand is a parseable number on the
stack) returns the #DIV/0! error, pushing nothing and panicking nowhere,
and the full evaluation of the "=1/0" token stream yields #DIV/0!. -/
theorem claim_C6 :
    (∀ (opt l r : Token) (rest : List Token) (lv rv : Qv),
      opt.tvalue = "/" →
      parseGoFloat l.tvalue = some lv →
      parseGoFloat r.tvalue = some rv → rv.num = 0 →
      calculate (r :: l :: rest) opt = .error (.goError "#DIV/0!")) ∧
    evalInfixExp emptyFile "Sheet1" [mkNumTok "1", infixTok "/", mkNumTok "0"] =
      .error (.goError "#DIV/0!") := by
  refine ⟨?_, by decide⟩
  intro opt l r rest lv rv hopt hl hr hz
  simp [calculate, hopt, hl, hr, qEqv, qZero, hz, formulaErrorDIV]

/-- C7: SQRT of a negative number returns the #NUM! error, POWER(0, y)
with y negative returns #DIV/0!, POWER(0, 0) returns #NUM!, and the full
evaluation of the "=SQRT(-1)" token stream yields #NUM!. -/
theorem claim_C7 :
    (∀ (t : Token) (v : Qv), parseGoFloat t.tvalue = some v → qLt v qZero = true →
      SQRT [t] = .error (.goError "#NUM!")) ∧
    (∀ (tx ty : Token) (x y : Qv), parseGoFloat tx.tvalue = some x →
      parseGoFloat ty.tvalue = some y → qEqv x qZero = true → qLt y qZero = true →
      POWER [tx, ty] = .error (.goError "#DIV/0!")) ∧
    (∀ (tx ty : Token) (x y : Qv), parseGoFloat tx.tvalue = some x →
      parseGoFloat ty.tvalue = some y → qEqv x qZero = true → qEqv y qZero = true →
      POWER [tx, ty] = .error (.goError "#NUM!")) ∧
    evalInfixExp emptyFile "Sheet1"
      [⟨"SQRT", "Function", "Start"⟩, ⟨"-", "OperatorPrefix", ""⟩, mkNumTok "1",
       ⟨"", "Function", "Stop"⟩] = .error (.goError "#NUM!") := by
  refine ⟨?_, ?_, ?_, by decide⟩
  · intro t v hp hneg
    simp [SQRT, oneNumArg, hp]
    rw [goM_ok_bind, if_pos hneg]
    rfl
  · intro tx ty x y hx hy hxz hyneg
    have hyz := qLt_zero_not_eqv hyneg
    simp [POWER, parseNumTok, hx, hy]
    rw [goM_ok_bind, goM_ok_bind, if_neg (by simp [hyz]), if_pos ⟨hxz, hyneg⟩]
    rfl
  · intro tx ty x y hx hy hxz hyz
    simp [POWER, parseNumTok, hx, hy]
    rw [goM_ok_bind, goM_ok_bind, if_pos ⟨hxz, hyz⟩]
    rfl

/-- C7 witness: the three domain rules applied at concrete inputs. -/
theorem claim_C7_witness :
    SQRT [mkNumTok "-1"] = .error (.goError "#NUM!") ∧
    POWER [mkNumTok "0", mkNumTok "-2"] = .error (.goError "#DIV/0!") ∧
    POWER [mkNumTok "0", mkNumTok "0"] = .error (.goError "#NUM!") :=
  ⟨claim_C7.1 (mkNumTok "-1") ⟨-1, 1⟩ (by decide) (by decide),
   claim_C7.2.1 (mkNumTok "0") (mkNumTok "-2") ⟨0, 1⟩ ⟨-2, 1⟩
     (by decide) (by decide) (by decide) (by decide),
   claim_C7.2.2.1 (mkNumTok "0") (mkNumTok "0") ⟨0, 1⟩ ⟨0, 1⟩
     (by decide) (by decide) (by decide) (by decide)⟩

/-- C6 witness: the division-by-zero rule applied at a concrete step. -/
theorem claim_C6_witness :
    calculate [mkNumTok "0", mkNumTok "1"] (infixTok "/") =
      .error (.goError "#DIV/0!") :=
  claim_C6.1 (infixTok "/") (mkNumTok "1") (mkNumTok "0") [] ⟨1, 1⟩ ⟨0, 1⟩
    rfl (by decide) (by decide) rfl

/-- C8: interning a string into the shared string table returns the index
of the existing entry when the exact value is already present, leaving the
table unchanged, and otherwise appends the value, increments both the total
and unique counters, keys the lookup map with the value (untouched by
escaping for values within the cell character limit), and returns the new
zero-based index; interning "foo", "foo", "bar" starting from an empty
table yields indices 0, 0, 1. -/
theorem claim_C8 :
    (∀ (f : FileM) (val : String) (p : String × Nat),
      f.sharedStringsMap.find? (fun q => q.1 == val) = some p →
      setSharedString f val = .ok (p.2, f)) ∧
    (∀ (f : FileM) (val : String),
      f.sharedStringsMap.find? (fun q => q.1 == val) = none →
      f.sstUniqueCount = f.sst.length →
      val.data.length ≤ TotalCellChars →
      setSharedString f val = .ok (f.sst.length,
        { f with
          sstCount := f.sstCount + 1
          sstUniqueCount := f.sst.length + 1
          sst := f.sst ++ [val]
          sharedStringsMap := f.sharedStringsMap ++ [(val, f.sst.length)] })) ∧
    setSharedString emptyFile "foo" = .ok (0, fileFoo) ∧
    setSharedString fileFoo "foo" = .ok (0, fileFoo) ∧
    setSharedString fileFoo "bar" = .ok (1, fileFooBar) := by
  refine ⟨?_, ?_, by decide, by decide, by decide⟩
  · intro f val p h
    simp [setSharedString, h]
  · intro f val h hc hlen
    have hst : setCellStrV val = val := congrArg String.mk (List.take_of_length_le hlen)
    simp [setSharedString, h, hst, hc]

/-- C8 witness: the hit and miss rules applied at the table holding only
"foo": re-interning "foo" returns 0 with no change; interning "baz"
appends it at index 1 with both counters at 2. -/
theorem claim_C8_witness :
    setSharedString fileFoo "foo" = .ok (0, fileFoo) ∧
    setSharedString fileFoo "baz" =
      .ok (1, ⟨[], ["foo", "baz"], [("foo", 0), ("baz", 1)], 2, 2⟩) := by
  constructor
  · exact claim_C8.1 fileFoo "foo" ("foo", 0) (by decide)
  · exact claim_C8.2.1 fileFoo "baz" (by decide) (by decide) (by decide)

/-- C9: the claim says GCD and LCM reject empty or negative arguments with
a recoverable error.  Negative arguments do produce the documented error
string, but an argument list whose tokens are all empty text is skipped
entirely by the number-collecting loop, after which the code indexes
nums[0] on an empty slice and panics instead of returning an error.  This
theorem evaluates the code at the failing input. -/
theorem claim_C9 :
    GCD [⟨"", "Operand", "Number"⟩] =
      .error (.goPanic "runtime error: index out of range [0] with length 0") ∧
    LCM [⟨"", "Operand", "Number"⟩] =
      .error (.goPanic "runtime error: index out of range [0] with length 0") ∧
    GCD [mkNumTok "-3"] = .error (.goError "GCD only accepts positive arguments") ∧
    LCM [mkNumTok "-3"] = .error (.goError "LCM only accepts positive arguments") := by
  decide

/-- C10: reading any cell that lies beyond the last stored row, or whose
row exists but stores no cell keyed by the requested (merge-resolved)
reference, yields the empty string with a nil error, for every accessor
built on getCellStringFunc; in particular GetCellValue and GetCellFormula
both return "" there. -/
theorem claim_C10 :
    (∀ (f : FileM) (sheet axis : String) (ws : Worksheet) (ax : String)
      (col row : Nat) (fn : Worksheet → XlsxC → GoM (String × Bool)),
      workSheetReaderM f sheet = .ok ws →
      mergeCellsParser ws axis = .ok ax →
      cellNameToCoordinates ax = .ok (col, row) →
      (row > lastRowNum ws ∨ ∀ rw ∈ ws.rows, rw.r = row → ∀ c ∈ rw.c, c.r ≠ ax) →
      getCellStringFunc f sheet axis fn = .ok "") ∧
    (∀ (f : FileM) (sheet axis : String) (ws : Worksheet) (ax : String) (col row : Nat),
      workSheetReaderM f sheet = .ok ws →
      mergeCellsParser ws axis = .ok ax →
      cellNameToCoordinates ax = .ok (col, row) →
      (row > lastRowNum ws ∨ ∀ rw ∈ ws.rows, rw.r = row → ∀ c ∈ rw.c, c.r ≠ ax) →
      GetCellValue f sheet axis = .ok "" ∧ GetCellFormula f sheet axis = .ok "") :=
  ⟨fun f sheet axis ws ax col row fn h1 h2 h3 h4 =>
      getCellStringFunc_unset f sheet axis ws ax col row fn h1 h2 h3 h4,
   fun f sheet axis ws ax col row h1 h2 h3 h4 =>
      ⟨getCellStringFunc_unset f sheet axis ws ax col row _ h1 h2 h3 h4,
       getCellStringFunc_unset f sheet axis ws ax col row _ h1 h2 h3 h4⟩⟩

/-- C10 witness: B2 is unset on Sheet1 (the sheet stores only A1 in row 1),
so both getters return the empty string with no error. -/
theorem claim_C10_witness :
    GetCellValue fileTwoSheets "Sheet1" "B2" = .ok "" ∧
    GetCellFormula fileTwoSheets "Sheet1" "B2" = .ok "" :=
  claim_C10.2 fileTwoSheets "Sheet1" "B2" wsS1 "B2" 2 2 (by decide) (by decide)
    (by decide) (Or.inl (by decide))
